import Mathlib

/-!
# schrv: an HTTP/1.1 server core

A shallow embedding of the Go package `server` (byte cursor, request parser,
request dispatch, response serializer) together with theorems about it.

Conventions of the embedding:

* a Go `string` or `[]byte` is a list of octets (`Bytes`), each octet a natural
  number below 256; arithmetic on `uint8` is written with an explicit `% 256`;
* a Go function `f(chars *charStream) (T, error)` becomes a state-passing
  function `charStream → Result T × charStream`;
* every `for` loop becomes a recursive function over a loop budget; the budget
  handed to a loop is the number of bytes still available plus two, which no
  loop of the parser can use up, as each of their iterations consumes a byte;
* a Go `panic` is the outcome `Result.panic`.
-/

namespace Schrv

/-! ## Bytes and outcomes -/

/-- A Go `string` (or `[]byte`): a sequence of octets. -/
abbrev Bytes := List Nat

/-- The octets of an ASCII literal. -/
def ascii (s : String) : Bytes := s.toList.map Char.toNat

/-- Go's conversion `string(b)` of a `byte` (an integer type): the UTF-8
encoding of the code point `b`, which is the single octet `b` below 0x80 and
two octets from 0x80 to 0xFF. -/
def stringOfByte (b : Nat) : Bytes :=
  if b < 128 then [b] else [192 ||| (b >>> 6), 128 ||| (b &&& 63)]

/-- The `error` values the package produces. -/
inductive Error where
  /-- The sentinel `io.EOF`. -/
  | EOF
  /-- Error "Unexpected end of stream" of `Next`. -/
  | unexpectedEndOfStream
  /-- Error "Unexpected character %q; expected %q" of `Expect`. -/
  | unexpectedCharacter (found expected : Nat)
  /-- Error "Unexpected character %q; expected a request target". -/
  | expectedRequestTarget (found : Nat)
  /-- Error "Unexpected EOF, expected digit". -/
  | unexpectedEOFDigit
  /-- Error "Invalid digit character: %q". -/
  | invalidDigit (char : Nat)
  deriving DecidableEq, Repr

/-- How a call ends: a normal return with `err == nil`, a normal return with
an error, a `panic`, or a loop that used up its budget. -/
inductive Result (α : Type) where
  | ok (val : α)
  | err (e : Error)
  | panic (msg : String)
  | diverge
  deriving DecidableEq, Repr

/-! ## char_stream.go -/

/-- The cursor `charStream`. The field `reader` holds the bytes the underlying
`io.Reader` has yet to deliver. -/
structure charStream where
  reader : List Nat
  hasPeek : Bool
  peek : Nat
  deriving DecidableEq, Repr

/-- Model of `reader.Read(p)` with `len(p) = len`, for the reader the program
passes to `newCharStream`, a `net.Conn` whose peer has sent the bytes `reader`
and closed: a call with an empty slice returns `0, nil` at once, whatever is
pending; a call with a slice that is not empty reports `io.EOF` once the bytes
are exhausted and before that stores as many of the pending bytes as fit in
`p`. The result is the bytes stored, the error, and the bytes still pending. -/
def readerRead (reader : List Nat) (len : Nat) : List Nat × Option Error × List Nat :=
  match len, reader with
  | 0, _ => ([], none, reader)
  | _ + 1, [] => ([], some Error.EOF, [])
  | _ + 1, _ :: _ => (reader.take len, none, reader.drop len)

/-- The function `newCharStream`. -/
def newCharStream (rd : List Nat) : charStream :=
  { reader := rd, hasPeek := false, peek := 0 }

/-- A computation on the cursor. -/
def Parser (α : Type) : Type := charStream → Result α × charStream

/-- Return a value, `return v, nil`. -/
def Parser.pure {α : Type} (a : α) : Parser α := fun s => (Result.ok a, s)

/-- Sequencing with the idiom `if err != nil { return zero, err }`. -/
def Parser.bind {α β : Type} (m : Parser α) (f : α → Parser β) : Parser β := fun s =>
  match m s with
  | (Result.ok a, s1) => f a s1
  | (Result.err e, s1) => (Result.err e, s1)
  | (Result.panic msg, s1) => (Result.panic msg, s1)
  | (Result.diverge, s1) => (Result.diverge, s1)

instance : Monad Parser where
  pure := Parser.pure
  bind := Parser.bind

/-- Return an error, `return zero, err`. -/
def Parser.fail {α : Type} (e : Error) : Parser α := fun s => (Result.err e, s)

/-- A Go `panic(msg)`. -/
def Parser.panic {α : Type} (msg : String) : Parser α := fun s => (Result.panic msg, s)

/-- A loop that ran out of budget. -/
def Parser.diverge {α : Type} : Parser α := fun s => (Result.diverge, s)

/-- A call whose error result is discarded by the caller: the value returned
alongside the error is `dflt`. -/
def Parser.ignoreErr {α : Type} (m : Parser α) (dflt : α) : Parser α := fun s =>
  match m s with
  | (Result.err _, s1) => (Result.ok dflt, s1)
  | r => r

/-- The loop budget for a cursor: the bytes still available plus two. -/
def charStream.budget (chars : charStream) : Nat := chars.reader.length + 2

/-- Run a loop with the budget of the current cursor. -/
def Parser.withBudget {α : Type} (loop : Nat → Parser α) : Parser α := fun s =>
  loop s.budget s

/-- The method `charStream.Next`. -/
def charStream.Next : Parser Nat := fun chars =>
  if chars.hasPeek then
    (Result.ok chars.peek, { chars with hasPeek := false })
  else
    match readerRead chars.reader 1 with
    | (_, some err, rd) => (Result.err err, { chars with reader := rd })
    | (result, none, rd) =>
      if result.length ≠ 1 then
        (Result.err Error.unexpectedEndOfStream, { chars with reader := rd })
      else
        (Result.ok (result.headD 0), { chars with reader := rd })

/-- The method `charStream.Peek`. -/
def charStream.Peek : Parser Nat := fun chars =>
  if !chars.hasPeek then
    match charStream.Next chars with
    | (Result.ok peek, chars1) => (Result.ok peek, { chars1 with peek := peek, hasPeek := true })
    | r => r
  else
    (Result.ok chars.peek, chars)

/-- The method `charStream.Expect`; the recursion is the loop over the bytes
of `expected`. -/
def charStream.Expect : Bytes → Parser Unit
  | [] => Parser.pure ()
  | e :: rest => do
    let found ← charStream.Next
    if found ≠ e then
      Parser.fail (Error.unexpectedCharacter found e)
    else
      charStream.Expect rest

/-! ## parser.go -/

/-- The function `parseDigit`. -/
def parseDigit : Parser Nat := do
  let char ← charStream.Next
  if char = 0 then
    Parser.fail Error.unexpectedEOFDigit
  else if char < 48 ∨ char > 57 then
    Parser.fail (Error.invalidDigit char)
  else
    pure ((char - 48) % 256)

/-- The function `parseHexDigit`. -/
def parseHexDigit : Parser Nat := do
  let char ← charStream.Next
  if char = 0 then
    Parser.fail Error.unexpectedEOFDigit
  else if char ≥ 48 ∧ char ≤ 57 then        -- '0' .. '9'
    pure ((char - 48) % 256)
  else if char ≥ 97 ∧ char ≤ 102 then       -- 'a' .. 'f'
    pure ((char - 97 + 10) % 256)
  else if char ≥ 65 ∧ char ≤ 70 then        -- 'A' .. 'F'
    pure ((char - 65 + 10) % 256)
  else
    Parser.fail (Error.invalidDigit char)

/-- The characters of the empty `case` clauses of the `switch` in
`parseSegment`: `- . _ ~ ! $ & ' ( ) * + , ; = : @`. A Go `case` does not fall
through, so for these the `switch` does nothing. -/
def isSegmentPunct (char : Nat) : Bool :=
  char = 45 || char = 46 || char = 95 || char = 126 || char = 33 || char = 36 ||
  char = 38 || char = 39 || char = 40 || char = 41 || char = 42 || char = 43 ||
  char = 44 || char = 59 || char = 61 || char = 58 || char = 64

/-- The test of the `default` clause of `parseSegment`: `char` is neither a
letter nor a digit. -/
def notAlnum (char : Nat) : Bool :=
  (char < 97 || char > 122) && (char < 65 || char > 90) && (char < 48 || char > 57)

/-- The loop of `parseSegment`, `segment` being the loop variable. -/
def parseSegmentLoop : Nat → Bytes → Parser Bytes
  | 0, _ => Parser.diverge
  | fuel + 1, segment => do
    let char ← charStream.Peek
    if isSegmentPunct char then
      let _ ← charStream.Next
      parseSegmentLoop fuel (segment ++ stringOfByte char)
    else if char = 37 then                   -- '%'
      let upper ← parseHexDigit
      let lower ← parseHexDigit
      parseSegmentLoop fuel (segment ++ stringOfByte (((upper <<< 4) % 256) ||| lower))
    else if notAlnum char then
      pure segment
    else
      let _ ← charStream.Next
      parseSegmentLoop fuel (segment ++ stringOfByte char)

/-- The function `parseSegment`. -/
def parseSegment : Parser Bytes := do
  charStream.Expect [47]                     -- "/"
  Parser.withBudget fun fuel => parseSegmentLoop fuel []

/-- The loop of `parseOriginForm`. -/
def parseOriginFormLoop : Nat → List Bytes → Parser (List Bytes)
  | 0, _ => Parser.diverge
  | fuel + 1, segments => do
    let peek ← charStream.Peek
    if peek ≠ 47 then
      pure segments
    else
      let segment ← parseSegment
      parseOriginFormLoop fuel (segments ++ [segment])

/-- The function `parseOriginForm`. -/
def parseOriginForm : Parser (List Bytes) :=
  Parser.withBudget fun fuel => parseOriginFormLoop fuel []

/-- The function `parseRequestTarget`. -/
def parseRequestTarget : Parser (List Bytes) := do
  let peek ← charStream.Peek
  if peek = 47 then
    parseOriginForm
  else if (peek ≥ 97 ∧ peek ≤ 122) ∨ (peek ≥ 65 ∧ peek ≤ 90) then
    Parser.panic "Absolute and authority form are unsupported."
  else if peek = 42 then
    Parser.panic "Asterisk form is unsupported."
  else
    Parser.fail (Error.expectedRequestTarget peek)

/-- The token characters of `parseToken`:
`! # $ % & ' * + - , ^ _ ` | ~`, letters and digits. -/
def isTokenChar (char : Nat) : Bool :=
  char = 33 || char = 35 || char = 36 || char = 37 || char = 38 || char = 39 ||
  char = 42 || char = 43 || char = 45 || char = 44 || char = 94 || char = 95 ||
  char = 96 || char = 124 || char = 126 ||
  (char ≥ 97 && char ≤ 122) || (char ≥ 65 && char ≤ 90) || (char ≥ 48 && char ≤ 57)

/-- The loop of `parseToken`. -/
def parseTokenLoop : Nat → Bytes → Parser Bytes
  | 0, _ => Parser.diverge
  | fuel + 1, result => do
    let char ← charStream.Peek
    if isTokenChar char then
      let _ ← charStream.Next
      parseTokenLoop fuel (result ++ stringOfByte char)
    else
      pure result

/-- The function `parseToken`. -/
def parseToken : Parser Bytes :=
  Parser.withBudget fun fuel => parseTokenLoop fuel []

/-- The function `parseMethod`. -/
def parseMethod : Parser Bytes := parseToken

/-- The function `parseFieldName`. -/
def parseFieldName : Parser Bytes := parseToken

/-- The loop of `skipOptionalWhitespace`. -/
def skipOptionalWhitespaceLoop : Nat → Parser Unit
  | 0 => Parser.diverge
  | fuel + 1 => do
    let char ← charStream.Peek
    if char = 32 ∨ char = 9 then
      let _ ← charStream.Next
      skipOptionalWhitespaceLoop fuel
    else
      pure ()

/-- The function `skipOptionalWhitespace`. -/
def skipOptionalWhitespace : Parser Unit :=
  Parser.withBudget skipOptionalWhitespaceLoop

/-- The loop of `parseFieldValue`; `whitespace` is `-1` or a length. -/
def parseFieldValueLoop : Nat → Bytes → Int → Parser Bytes
  | 0, _, _ => Parser.diverge
  | fuel + 1, result, whitespace => do
    let char ← charStream.Peek
    if (char ≥ 33 ∧ char ≤ 126) ∨ (char ≥ 128 ∧ char ≤ 255) then
      let _ ← charStream.Next
      parseFieldValueLoop fuel (result ++ stringOfByte char) (-1)
    else if char = 32 ∨ char = 9 then
      let _ ← charStream.Next
      parseFieldValueLoop fuel (result ++ stringOfByte char) (result.length : Int)
    else if whitespace ≠ -1 then
      pure (result.take whitespace.toNat)
    else
      pure result

/-- The function `parseFieldValue`. -/
def parseFieldValue : Parser Bytes :=
  Parser.withBudget fun fuel => parseFieldValueLoop fuel [] (-1)

/-- The type `HeaderField`. -/
structure HeaderField where
  Name : Bytes
  Value : Bytes
  deriving DecidableEq, Repr

/-- The function `parseHeaderField`; the result of both calls of
`skipOptionalWhitespace` is discarded. -/
def parseHeaderField : Parser HeaderField := do
  let name ← parseFieldName
  charStream.Expect [58]                     -- ":"
  Parser.ignoreErr skipOptionalWhitespace ()
  let value ← parseFieldValue
  Parser.ignoreErr skipOptionalWhitespace ()
  pure { Name := name, Value := value }

/-- The function `parseHttpVersion`. -/
def parseHttpVersion : Parser Nat := do
  charStream.Expect (ascii "HTTP/")
  let major ← parseDigit
  charStream.Expect (ascii ".")
  let minor ← parseDigit
  pure (((major <<< 4) % 256) ||| minor)

/-- The function `parseStatusCode`. -/
def parseStatusCode : Parser Nat := do
  let top ← parseDigit
  let mid ← parseDigit
  let bot ← parseDigit
  pure ((100 * top + 10 * mid + bot) % 65536)

/-- The inner loop `for char == '\r'` of `parseStatusLine`, entered with a
carriage return in `char`: it returns from the function as soon as the next
byte is not another carriage return. -/
def parseStatusLineInner : Nat → Parser Unit
  | 0 => Parser.diverge
  | fuel + 1 => do
    let char ← charStream.Next
    if char = 10 ∨ char ≠ 13 then
      pure ()
    else
      parseStatusLineInner fuel

/-- The outer loop of `parseStatusLine`, which skips the reason phrase. -/
def parseStatusLineLoop : Nat → Parser Unit
  | 0 => Parser.diverge
  | fuel + 1 => do
    let char ← charStream.Next
    if char = 13 then
      parseStatusLineInner fuel
    else
      parseStatusLineLoop fuel

/-- The function `parseStatusLine`: the version and the status code. -/
def parseStatusLine : Parser (Nat × Nat) := do
  let versionNumber ← parseHttpVersion
  charStream.Expect [32]
  let statusCode ← parseStatusCode
  charStream.Expect [32]
  Parser.withBudget parseStatusLineLoop
  pure (versionNumber, statusCode)

/-- The type `map[string][]string`, as the list of its entries. The order of
the list is the order in which a `range` over the map visits them. -/
abbrev HeaderMap := List (Bytes × List Bytes)

/-- The lookup `m[name]`, which is `nil` for a name that is absent. -/
def mapGet (m : HeaderMap) (name : Bytes) : List Bytes :=
  match m with
  | [] => []
  | (k, v) :: rest => if k = name then v else mapGet rest name

/-- The assignment `m[name] = values`. -/
def mapSet (m : HeaderMap) (name : Bytes) (values : List Bytes) : HeaderMap :=
  match m with
  | [] => [(name, values)]
  | (k, v) :: rest => if k = name then (k, values) :: rest else (k, v) :: mapSet rest name values

/-- The type `RequestLine`. -/
structure RequestLine where
  Method : Bytes
  Target : List Bytes
  Version : Nat
  deriving DecidableEq, Repr

/-- The type `HttpRequest`. -/
structure HttpRequest where
  RequestLine : Schrv.RequestLine
  Headers : HeaderMap
  RequestBody : Bytes
  deriving DecidableEq, Repr

/-- The type `HttpResponse`. -/
structure HttpResponse where
  Status : Nat
  Headers : HeaderMap
  ResponseBody : Bytes
  deriving DecidableEq, Repr

/-- The function `parseRequestLine`. The error of `parseHttpVersion` is
assigned to a variable that is never read: on that path `version` is the zero
the function returns alongside its error. -/
def parseRequestLine : Parser RequestLine := do
  let method ← parseMethod
  charStream.Expect [32]
  let target ← parseRequestTarget
  charStream.Expect [32]
  let version ← Parser.ignoreErr parseHttpVersion 0
  charStream.Expect (ascii "\r\n")
  pure { Method := method, Target := target, Version := version }

/-- The loop of `parseHttpMessage` over the header fields. -/
def parseHttpMessageLoop : Nat → HeaderMap → Parser HeaderMap
  | 0, _ => Parser.diverge
  | fuel + 1, headers => do
    let peek ← charStream.Peek
    if peek = 13 then
      pure headers
    else
      let headerField ← parseHeaderField
      let headers := mapSet headers headerField.Name
        (mapGet headers headerField.Name ++ [headerField.Value])
      charStream.Expect (ascii "\r\n")
      parseHttpMessageLoop fuel headers

/-- The function `parseHttpMessage`. -/
def parseHttpMessage : Parser HttpRequest := do
  let requestLine ← parseRequestLine
  let headers ← Parser.withBudget fun fuel => parseHttpMessageLoop fuel []
  charStream.Expect (ascii "\r\n")
  pure { RequestLine := requestLine, Headers := headers, RequestBody := [] }

/-! ## char_stream.go: `Read` -/

/-- The loop of `charStream.Read`: `buf` is the buffer, `pos` the number of
bytes stored so far. Each turn hands `buf[pos:]` to the reader and leaves the
loop only on `io.EOF`; it has no exit for a buffer that is full. -/
def charStream.ReadLoop : Nat → List Nat → Nat → Parser Bytes
  | 0, _, _ => Parser.diverge
  | fuel + 1, buf, pos => fun chars =>
    match readerRead chars.reader (buf.length - pos) with
    | (got, err, rd) =>
      let buf1 := buf.take pos ++ got ++ buf.drop (pos + got.length)
      let pos1 := pos + got.length
      let chars1 : charStream := { chars with reader := rd }
      match err with
      | some Error.EOF => (Result.ok buf1, chars1)
      | some e => (Result.err e, chars1)
      | none => charStream.ReadLoop fuel buf1 pos1 chars1

/-- The limit `maxAlloc` of the Go runtime on 64-bit Linux: `make([]byte, n)`
panics with "makeslice: len out of range" for `n` above it. -/
def maxAlloc : Nat := 2 ^ 48

/-- The method `charStream.Read`. The allocation `make([]byte, amount)` panics
for an amount above `maxAlloc`. -/
def charStream.Read (amount : Nat) : Parser Bytes := fun chars =>
  if amount > maxAlloc then
    (Result.panic "runtime error: makeslice: len out of range", chars)
  else
    let buf := List.replicate amount 0
    if chars.hasPeek && amount ≠ 0 then
      match charStream.Next chars with
      | (Result.ok next, chars1) =>
        Parser.withBudget (fun fuel => charStream.ReadLoop fuel (buf.set 0 next) 1) chars1
      | (Result.err e, chars1) => (Result.err e, chars1)
      | (Result.panic msg, chars1) => (Result.panic msg, chars1)
      | (Result.diverge, chars1) => (Result.diverge, chars1)
    else
      Parser.withBudget (fun fuel => charStream.ReadLoop fuel buf 0) chars

/-! ## char_stream.go: `Rest` -/

/-- The loop of `charStream.Rest`: `buffer` is the buffer, `pos` the number of
bytes stored so far. Each turn hands `buffer[pos:]` to the reader; on `io.EOF`
the result is `buffer[:pos]`; when the buffer is full, `buffer` becomes a fresh
slice, `ChunkSize` longer, into which nothing is copied. -/
def charStream.RestLoop : Nat → List Nat → Nat → Parser Bytes
  | 0, _, _ => Parser.diverge
  | fuel + 1, buffer, pos => fun chars =>
    match readerRead chars.reader (buffer.length - pos) with
    | (got, err, rd) =>
      let buffer1 := buffer.take pos ++ got ++ buffer.drop (pos + got.length)
      let pos1 := pos + got.length
      let chars1 : charStream := { chars with reader := rd }
      match err with
      | some Error.EOF => (Result.ok (buffer1.take pos1), chars1)
      | some e => (Result.err e, chars1)
      | none =>
        if pos1 = buffer1.length then
          charStream.RestLoop fuel (List.replicate (buffer1.length + 1024) 0) pos1 chars1
        else
          charStream.RestLoop fuel buffer1 pos1 chars1

/-- The method `charStream.Rest`, with `ChunkSize = 1024`. The cached byte is
copied to `buffer[0]` and the field `hasPeek` is not assigned. -/
def charStream.Rest : Parser Bytes := fun chars =>
  let buffer := List.replicate 1024 0
  if chars.hasPeek then
    Parser.withBudget (fun fuel => charStream.RestLoop fuel (buffer.set 0 chars.peek) 1) chars
  else
    Parser.withBudget (fun fuel => charStream.RestLoop fuel buffer 0) chars

/-! ## The library functions the package calls -/

/-- The digit loop of `strconv.ParseUint` in base 10. -/
def parseUintLoop : Bytes → Nat → Option Nat
  | [], acc => some acc
  | c :: rest, acc =>
    if 48 ≤ c ∧ c ≤ 57 then parseUintLoop rest (acc * 10 + (c - 48)) else none

/-- The call `strconv.ParseInt(s, 10, 0)` on a 64-bit platform: an optional
sign, then one or more decimal digits, the value within the range of `int64`;
`none` stands for a non-nil error. -/
def ParseInt (s : Bytes) : Option Int :=
  match s with
  | [] => none
  | c :: rest =>
    let neg : Bool := c = 45
    let digits : Bytes := if c = 43 ∨ c = 45 then rest else s
    if digits = [] then none
    else
      match parseUintLoop digits 0 with
      | none => none
      | some un =>
        if !neg && un ≥ 2 ^ 63 then none
        else if neg && un > 2 ^ 63 then none
        else some (if neg then -(un : Int) else (un : Int))

/-- The digit loop of `strconv.FormatInt` in base 10, for a value that is not
negative; `acc` holds the digits produced so far. -/
def formatLoop : Nat → Nat → Bytes → Bytes
  | 0, _, acc => acc
  | fuel + 1, n, acc =>
    if n < 10 then (48 + n) :: acc else formatLoop fuel (n / 10) ((48 + n % 10) :: acc)

/-- The call `strconv.FormatInt(int64(n), 10)` for a value that is not
negative: the decimal digits of `n`. -/
def FormatInt (n : Nat) : Bytes := formatLoop (n + 1) n []

/-- The function `strings.ToUpper` on ASCII letters. On a string with a byte
above 0x7F the library maps runes and its result keeps a byte above 0x7F, as
this one does, so both agree on whether the result is `"GET"` or `"HEAD"`. -/
def ToUpper (s : Bytes) : Bytes :=
  s.map fun c => if 97 ≤ c ∧ c ≤ 122 then c - 32 else c

/-! ## responses.go -/

/-- The function `HttpVersionNotSupported`. -/
def HttpVersionNotSupported : HttpResponse :=
  { Status := 505, Headers := [], ResponseBody := ascii "This server only supports HTTP/1.x." }

/-- The function `NotImplemented`. -/
def NotImplemented : HttpResponse := { Status := 501, Headers := [], ResponseBody := [] }

/-- The function `InternalServerError`. -/
def InternalServerError : HttpResponse := { Status := 500, Headers := [], ResponseBody := [] }

/-- The function `NotFound`. -/
def NotFound : HttpResponse := { Status := 404, Headers := [], ResponseBody := [] }

/-- The function `BadRequest`. -/
def BadRequest : HttpResponse := { Status := 400, Headers := [], ResponseBody := [] }

/-- The function `ExpectationFailed`. -/
def ExpectationFailed : HttpResponse := { Status := 417, Headers := [], ResponseBody := [] }

/-- The function `Ok`. -/
def Ok (body : Bytes) : HttpResponse := { Status := 200, Headers := [], ResponseBody := body }

/-! ## server.go

Handlers are Go closures and may read and change the state of the application;
`σ` is the type of that state, which every handler receives and returns. -/

/-- The zero value `HttpResponse{}`. -/
def HttpResponse.zero : HttpResponse := { Status := 0, Headers := [], ResponseBody := [] }

/-- The type `RequestHandler`. -/
abbrev RequestHandler (σ : Type) : Type := HttpRequest → σ → HttpResponse × σ

/-- The type `func(request HttpRequest) (bool, HttpResponse)` of the entries of
`Server.handlers`. -/
abbrev Handler (σ : Type) : Type := HttpRequest → σ → (Bool × HttpResponse) × σ

/-- The type `Server`, without its listener. -/
structure Server (σ : Type) where
  handlers : List (Handler σ)

/-- The loop `for i := 0; i < len(path); i++` of the closure of `Server.Get`,
with `n` turns left from index `i`: `true` when it returns `false, HttpResponse{}`
for a segment that differs. -/
def getMismatch (path target : List Bytes) : Nat → Nat → Bool
  | 0, _ => false
  | n + 1, i =>
    if path.getD i [] ≠ target.getD i [] then true else getMismatch path target n (i + 1)

/-- The closure that `Server.Get` registers. -/
def getPredicate {σ : Type} (path : List Bytes) (handler : RequestHandler σ) : Handler σ :=
  fun request w =>
    if path.length ≠ request.RequestLine.Target.length then
      ((false, HttpResponse.zero), w)
    else if getMismatch path request.RequestLine.Target path.length 0 then
      ((false, HttpResponse.zero), w)
    else
      match handler request w with
      | (response, w1) => ((true, response), w1)

/-- The method `Server.Get`. -/
def Server.Get {σ : Type} (server : Server σ) (path : List Bytes)
    (handler : RequestHandler σ) : Server σ :=
  { handlers := server.handlers ++ [getPredicate path handler] }

/-- The method `Server.CustomHandler`. -/
def Server.CustomHandler {σ : Type} (server : Server σ) (handler : Handler σ) : Server σ :=
  { handlers := server.handlers ++ [handler] }

/-- The loop over `server.handlers` of the case `"GET"` of `handleRequest`,
with `NotFound()` after it. -/
def rangeHandlersGet {σ : Type} : List (Handler σ) → HttpRequest → σ → HttpResponse × σ
  | [], _, w => (NotFound, w)
  | handler :: rest, request, w =>
    match handler request w with
    | ((true, response), w1) => (response, w1)
    | ((false, _), w1) => rangeHandlersGet rest request w1

/-- The loop over `server.handlers` of the case `"HEAD"` of `handleRequest`,
with `NotFound()` after it. -/
def rangeHandlersHead {σ : Type} : List (Handler σ) → HttpRequest → σ → HttpResponse × σ
  | [], _, w => (NotFound, w)
  | handler :: rest, request, w =>
    match handler request w with
    | ((true, response), w1) => ({ response with ResponseBody := [] }, w1)
    | ((false, _), w1) => rangeHandlersHead rest request w1

/-- The part of `Server.handleRequest` after the body has been read: the loop
over the `Expect` values, which ends in its first turn, and the `switch` on the
method. -/
def Server.handleRequestDispatch {σ : Type} (server : Server σ) (request : HttpRequest)
    (chars : charStream) (w : σ) : Result HttpResponse × charStream × σ :=
  match mapGet request.Headers (ascii "Expect") with
  | expectation :: _ =>
    if expectation = ascii "100-continue" then
      (Result.panic "Continuation is unimplemented", chars, w)
    else
      (Result.ok ExpectationFailed, chars, w)
  | [] =>
    if ToUpper request.RequestLine.Method = ascii "GET" then
      match rangeHandlersGet server.handlers request w with
      | (response, w1) => (Result.ok response, chars, w1)
    else if ToUpper request.RequestLine.Method = ascii "HEAD" then
      match rangeHandlersHead server.handlers request w with
      | (response, w1) => (Result.ok response, chars, w1)
    else
      (Result.ok NotImplemented, chars, w)

/-- The method `Server.handleRequest`: the response or error, the cursor and
the application state it leaves. -/
def Server.handleRequest {σ : Type} (server : Server σ) (request : HttpRequest)
    (chars : charStream) (w : σ) : Result HttpResponse × charStream × σ :=
  if request.RequestLine.Version >>> 4 ≠ 1 then
    (Result.ok HttpVersionNotSupported, chars, w)
  else if (mapGet request.Headers (ascii "Host")).length ≠ 1 then
    (Result.ok BadRequest, chars, w)
  else if (mapGet request.Headers (ascii "Content-Length")).length > 1 then
    (Result.ok BadRequest, chars, w)
  else if (mapGet request.Headers (ascii "Content-Length")).length = 1 then
    match ParseInt ((mapGet request.Headers (ascii "Content-Length")).headD []) with
    | none => (Result.ok BadRequest, chars, w)
    | some contentLength =>
      if contentLength < 0 then
        (Result.ok BadRequest, chars, w)
      else
        match charStream.Read contentLength.toNat chars with
        | (Result.ok body, chars1) =>
          server.handleRequestDispatch { request with RequestBody := body } chars1 w
        | (Result.err e, chars1) => (Result.err e, chars1, w)
        | (Result.panic msg, chars1) => (Result.panic msg, chars1, w)
        | (Result.diverge, chars1) => (Result.diverge, chars1, w)
  else
    server.handleRequestDispatch request chars w

/-! ## unparser.go -/

/-- The table `reasonPhrases`, with the empty string for a status code that is
not a key. -/
def reasonPhrases (status : Nat) : Bytes :=
  match status with
  | 100 => ascii "Continue"
  | 101 => ascii "Switching Protocols"
  | 200 => ascii "OK"
  | 201 => ascii "Created"
  | 202 => ascii "Accepted"
  | 203 => ascii "Non-Authoritative Information"
  | 204 => ascii "No Content"
  | 205 => ascii "Reset Content"
  | 300 => ascii "Multiple Choices"
  | 301 => ascii "Moved Permanently"
  | 302 => ascii "Found"
  | 303 => ascii "See Other"
  | 305 => ascii "Use Proxy"
  | 307 => ascii "Temporary Redirect"
  | 400 => ascii "Bad Request"
  | 402 => ascii "Payment Required"
  | 403 => ascii "Forbidden"
  | 404 => ascii "Not Found"
  | 405 => ascii "Method Not Allowed"
  | 406 => ascii "Not Acceptable"
  | 408 => ascii "Request Timeout"
  | 409 => ascii "Conflict"
  | 410 => ascii "Gone"
  | 411 => ascii "Length Required"
  | 413 => ascii "Payload Too Large"
  | 414 => ascii "URI Too Long"
  | 415 => ascii "Unsupported Media Type"
  | 417 => ascii "Expectation Failed"
  | 426 => ascii "Upgrade Required"
  | 500 => ascii "Internal Server Error"
  | 501 => ascii "Not Implemented"
  | 502 => ascii "Bad Gateway"
  | 503 => ascii "Service Unavailable"
  | 504 => ascii "Gateway Timeout"
  | 505 => ascii "HTTP Version Not Supported"
  | _ => []

/-- The lines that the inner loop of `unparse` writes for one header name. -/
def unparseValues (headerName : Bytes) (headerValues : List Bytes) : Bytes :=
  match headerValues with
  | [] => []
  | headerValue :: rest =>
    headerName ++ [58] ++ headerValue ++ ascii "\r\n" ++ unparseValues headerName rest

/-- The lines that the loop over `response.Headers` of `unparse` writes. -/
def unparseHeaders (headers : HeaderMap) : Bytes :=
  match headers with
  | [] => []
  | (headerName, headerValues) :: rest =>
    unparseValues headerName headerValues ++ unparseHeaders rest

/-- The function `unparse`. -/
def unparse (response : HttpResponse) : Bytes :=
  ascii "HTTP/1.1" ++ [32] ++ FormatInt response.Status ++ [32] ++
    reasonPhrases response.Status ++ [32] ++ ascii "\r\n" ++
    unparseHeaders response.Headers ++ ascii "\r\n" ++ response.ResponseBody

/-! ## server.go: `handleConnection` -/

/-- The method `Server.handleConnection` on a connection that delivers the
bytes `conn` and then ends: the bytes written to the connection, or the error
on which the connection is closed with nothing written. -/
def Server.handleConnection {σ : Type} (server : Server σ) (conn : List Nat) (w : σ) :
    Result Bytes × σ :=
  match parseHttpMessage (newCharStream conn) with
  | (Result.ok request, chars) =>
    match server.handleRequest request chars w with
    | (Result.ok response, _, w1) => (Result.ok (unparse response), w1)
    | (Result.err e, _, w1) => (Result.err e, w1)
    | (Result.panic msg, _, w1) => (Result.panic msg, w1)
    | (Result.diverge, _, w1) => (Result.diverge, w1)
  | (Result.err e, _) => (Result.err e, w)
  | (Result.panic msg, _) => (Result.panic msg, w)
  | (Result.diverge, _) => (Result.diverge, w)

/-! ## Vocabulary of the statements -/

/-- The bytes a cursor has yet to hand out: the cached byte, if any, and then
the bytes of the reader. -/
def charStream.pending (chars : charStream) : Bytes :=
  if chars.hasPeek then chars.peek :: chars.reader else chars.reader

/-- The request `request` passes the version, Host, Content-Length and Expect
checks of `handleRequest` on the cursor `chars`; `request1` and `chars1` are the
request and the cursor once the body, if one is declared, has been read. -/
def passesChecks (request : HttpRequest) (chars : charStream)
    (request1 : HttpRequest) (chars1 : charStream) : Prop :=
  request.RequestLine.Version >>> 4 = 1 ∧
  (mapGet request.Headers (ascii "Host")).length = 1 ∧
  ((mapGet request.Headers (ascii "Content-Length") = [] ∧
      request1 = request ∧ chars1 = chars) ∨
    (∃ (value : Bytes) (n : Nat) (body : Bytes),
      mapGet request.Headers (ascii "Content-Length") = [value] ∧
      ParseInt value = some (n : Int) ∧
      charStream.Read n chars = (Result.ok body, chars1) ∧
      request1 = { request with RequestBody := body })) ∧
  mapGet request.Headers (ascii "Expect") = []

/-- The handlers of the list, called in order on `request` from the state `w`,
all return `claimed = false`; the value is the state the last of them leaves. -/
def declineAll {σ : Type} : List (Handler σ) → HttpRequest → σ → Option σ
  | [], _, w => some w
  | handler :: rest, request, w =>
    match handler request w with
    | ((true, _), _) => none
    | ((false, _), w1) => declineAll rest request w1

/-- A record of the calls made to the handlers: the index of the handler in
registration order and the request it was handed. -/
abbrev CallLog : Type := List (Nat × HttpRequest)

/-- The handler `handler`, registered at index `i`, made to record each call
in a log kept next to the application state. -/
def observed {σ : Type} (i : Nat) (handler : Handler σ) : Handler (σ × CallLog) :=
  fun request st =>
    match handler request st.1 with
    | (answer, w1) => (answer, (w1, st.2 ++ [(i, request)]))

/-- The handlers of a list made to record their calls, the first of them
having index `i`. -/
def observedFrom {σ : Type} : Nat → List (Handler σ) → List (Handler (σ × CallLog))
  | _, [] => []
  | i, handler :: rest => observed i handler :: observedFrom (i + 1) rest

/-- The log entries of calls to the handlers `i`, ..., `i + n - 1`, in order,
each with the request `request`. -/
def callsFrom (request : HttpRequest) : Nat → Nat → CallLog
  | _, 0 => []
  | i, n + 1 => (i, request) :: callsFrom request (i + 1) n

/-- The rendering of a response as the specification words it: the status line
`HTTP/1.1 <status> <reason>\r\n`, the header lines, a blank line, the body. -/
def unparseSpec (response : HttpResponse) : Bytes :=
  ascii "HTTP/1.1 " ++ FormatInt response.Status ++ ascii " " ++
    reasonPhrases response.Status ++ ascii "\r\n" ++
    unparseHeaders response.Headers ++ ascii "\r\n" ++ response.ResponseBody

/-! ### Well-formed request heads -/

/-- A character that `parseSegment` appends as it stands: one of its empty
`case` clauses, a letter or a digit. -/
def isSegmentChar (char : Nat) : Bool := isSegmentPunct char || !notAlnum char

/-- A character at which `parseSegment` returns: not one of its `case`
clauses, not a letter and not a digit. -/
def isSegmentStop (char : Nat) : Bool :=
  !isSegmentPunct char && !decide (char = 37) && notAlnum char

/-- The first test of `parseFieldValue`: a visible ASCII character or an octet
with the high bit set. -/
def isFieldVchar (char : Nat) : Bool :=
  (decide (char ≥ 33) && decide (char ≤ 126)) || (decide (char ≥ 128) && decide (char ≤ 255))

/-- The bytes of an origin-form target with the given segments: each segment
after a slash. -/
def renderTarget : List Bytes → Bytes
  | [] => []
  | segment :: rest => 47 :: segment ++ renderTarget rest

/-- A header line as written on the wire: the name, a colon, optional
whitespace, the value, CRLF. -/
structure FieldLine where
  name : Bytes
  ows : Bytes
  value : Bytes

/-- The header line is well formed: the name is made of token characters, the
optional whitespace of spaces and tabs, the value of visible characters and
high-bit octets. -/
def FieldLine.wellFormed (f : FieldLine) : Prop :=
  (∀ x ∈ f.name, isTokenChar x = true) ∧ (∀ x ∈ f.ows, x = 32 ∨ x = 9) ∧
    (∀ x ∈ f.value, isFieldVchar x = true)

/-- The bytes of a header line. -/
def FieldLine.render (f : FieldLine) : Bytes :=
  f.name ++ 58 :: f.ows ++ f.value ++ [13, 10]

/-- The bytes of a sequence of header lines. -/
def renderFields : List FieldLine → Bytes
  | [] => []
  | f :: rest => f.render ++ renderFields rest

/-- The value that `parseFieldValue` builds from the bytes `value`, each byte
going through the conversion `string(char)`. -/
def fieldValueOf : Bytes → Bytes
  | [] => []
  | x :: rest => stringOfByte x ++ fieldValueOf rest

/-- The header mapping after the statement
`headers[name] = append(headers[name], value)` for a header line. -/
def addField (headers : HeaderMap) (f : FieldLine) : HeaderMap :=
  mapSet headers f.name (mapGet headers f.name ++ [fieldValueOf f.value])

/-- The header mapping built from a sequence of header lines, starting from
`headers`. -/
def addFields : HeaderMap → List FieldLine → HeaderMap
  | headers, [] => headers
  | headers, f :: rest => addFields (addField headers f) rest

/-- The bytes of a request head: the request line with the method, the
origin-form target and the version `HTTP/a.b`, the header lines, and the blank
line. -/
def renderHead (method : Bytes) (segments : List Bytes) (a b : Nat)
    (fields : List FieldLine) : Bytes :=
  method ++ 32 :: renderTarget segments ++ 32 :: ascii "HTTP/" ++
    (48 + a) :: 46 :: (48 + b) :: 13 :: 10 :: renderFields fields ++ [13, 10]

/-- The values that the header lines named exactly `name` carry, in order of
arrival, each as `parseFieldValue` returns it. -/
def valuesOf (name : Bytes) : List FieldLine → List Bytes
  | [] => []
  | f :: rest =>
    if f.name = name then fieldValueOf f.value :: valuesOf name rest else valuesOf name rest

/-- The request `request` passes the version, Host and Content-Length checks
of `handleRequest` on the cursor `chars`; `request1` and `chars1` are the
request and the cursor once the body, if one is declared, has been read. -/
def passesEarlyChecks (request : HttpRequest) (chars : charStream)
    (request1 : HttpRequest) (chars1 : charStream) : Prop :=
  request.RequestLine.Version >>> 4 = 1 ∧
  (mapGet request.Headers (ascii "Host")).length = 1 ∧
  ((mapGet request.Headers (ascii "Content-Length") = [] ∧
      request1 = request ∧ chars1 = chars) ∨
    (∃ (value : Bytes) (n : Nat) (body : Bytes),
      mapGet request.Headers (ascii "Content-Length") = [value] ∧
      ParseInt value = some (n : Int) ∧
      charStream.Read n chars = (Result.ok body, chars1) ∧
      request1 = { request with RequestBody := body }))

/-! ## Basic facts about the cursor -/

theorem Parser.bind_apply {α β : Type} (m : Parser α) (f : α → Parser β) (s : charStream) :
    (m >>= f) s =
      match m s with
      | (Result.ok a, s1) => f a s1
      | (Result.err e, s1) => (Result.err e, s1)
      | (Result.panic msg, s1) => (Result.panic msg, s1)
      | (Result.diverge, s1) => (Result.diverge, s1) := rfl

theorem Parser.pure_apply {α : Type} (a : α) (s : charStream) :
    (Pure.pure a : Parser α) s = (Result.ok a, s) := rfl

theorem Parser.bind_ok {α β : Type} (m : Parser α) (f : α → Parser β) (s s1 : charStream)
    (a : α) (h : m s = (Result.ok a, s1)) : (m >>= f) s = f a s1 := by
  rw [Parser.bind_apply, h]

theorem Next_of_pending (chars : charStream) (c : Nat) (rest : Bytes)
    (h : chars.pending = c :: rest) :
    charStream.Next chars = (Result.ok c, { reader := rest, hasPeek := false, peek := chars.peek }) := by
  obtain ⟨rd, hp, pk⟩ := chars
  cases hp
  · simp only [charStream.pending] at h
    simp at h
    subst h
    simp [charStream.Next, readerRead]
  · simp only [charStream.pending] at h
    simp at h
    obtain ⟨h1, h2⟩ := h
    subst h1 h2
    simp [charStream.Next]

theorem Peek_of_pending (chars : charStream) (c : Nat) (rest : Bytes)
    (h : chars.pending = c :: rest) :
    charStream.Peek chars = (Result.ok c, { reader := rest, hasPeek := true, peek := c }) := by
  obtain ⟨rd, hp, pk⟩ := chars
  cases hp
  · simp only [charStream.pending] at h
    simp at h
    subst h
    simp [charStream.Peek, charStream.Next, readerRead]
  · simp only [charStream.pending] at h
    simp at h
    obtain ⟨h1, h2⟩ := h
    subst h1 h2
    simp [charStream.Peek]

/-! ## Dispatch -/

theorem handleRequest_of_passesChecks {σ : Type} (server : Server σ) (request request1 : HttpRequest)
    (chars chars1 : charStream) (w : σ) (h : passesChecks request chars request1 chars1) :
    server.handleRequest request chars w = server.handleRequestDispatch request1 chars1 w := by
  obtain ⟨hv, hh, hb, _⟩ := h
  unfold Server.handleRequest
  rcases hb with ⟨hc, rfl, rfl⟩ | ⟨value, n, body, hc, hp, hr, rfl⟩
  · simp [hv, hh, hc]
  · simp [hv, hh, hc, hp, hr]

theorem passesChecks_expect {request request1 : HttpRequest} {chars chars1 : charStream}
    (h : passesChecks request chars request1 chars1) :
    mapGet request1.Headers (ascii "Expect") = [] := by
  obtain ⟨_, _, hb, he⟩ := h
  rcases hb with ⟨_, rfl, _⟩ | ⟨value, n, body, _, _, _, rfl⟩
  · exact he
  · exact he

theorem passesChecks_method {request request1 : HttpRequest} {chars chars1 : charStream}
    (h : passesChecks request chars request1 chars1) :
    request1.RequestLine = request.RequestLine := by
  obtain ⟨_, _, hb, he⟩ := h
  rcases hb with ⟨_, rfl, _⟩ | ⟨value, n, body, _, _, _, rfl⟩ <;> rfl

theorem rangeHandlersGet_observed_claim {σ : Type} (pre : List (Handler σ)) (h : Handler σ)
    (post : List (Handler σ)) (request : HttpRequest) (r : HttpResponse) (w w1 w2 : σ)
    (i : Nat) (log : CallLog)
    (hpre : declineAll pre request w = some w1) (hh : h request w1 = ((true, r), w2)) :
    rangeHandlersGet (observedFrom i (pre ++ h :: post)) request (w, log) =
      (r, (w2, log ++ callsFrom request i (pre.length + 1))) := by
  induction pre generalizing w i log with
  | nil =>
    simp [declineAll] at hpre
    subst hpre
    simp [observedFrom, rangeHandlersGet, observed, hh, callsFrom]
  | cons a pre ih =>
    simp only [declineAll] at hpre
    rcases ha : a request w with ⟨⟨claimed, resp⟩, wa⟩
    rw [ha] at hpre
    cases claimed
    · simp at hpre
      have := ih wa (i + 1) (log ++ [(i, request)]) hpre
      simp [observedFrom, rangeHandlersGet, observed, ha, callsFrom]
      simpa [observedFrom] using this
    · simp at hpre

theorem rangeHandlersGet_observed_decline {σ : Type} (hs : List (Handler σ))
    (request : HttpRequest) (w w1 : σ) (i : Nat) (log : CallLog)
    (hall : declineAll hs request w = some w1) :
    rangeHandlersGet (observedFrom i hs) request (w, log) =
      (NotFound, (w1, log ++ callsFrom request i hs.length)) := by
  induction hs generalizing w i log with
  | nil =>
    simp [declineAll] at hall
    subst hall
    simp [observedFrom, rangeHandlersGet, callsFrom]
  | cons a hs ih =>
    simp only [declineAll] at hall
    rcases ha : a request w with ⟨⟨claimed, resp⟩, wa⟩
    rw [ha] at hall
    cases claimed
    · simp at hall
      have := ih wa (i + 1) (log ++ [(i, request)]) hall
      simp [observedFrom, rangeHandlersGet, observed, ha, callsFrom]
      simpa using this
    · simp at hall

/-- Claim C1 (the code fails the claim): on the target `/a%2Fb` followed by a
space, `parseRequestTarget` does not return the segment `a/b` but the error of
`parseHexDigit` for the character `%` (37), which `parseSegment` has peeked and
not consumed when it asks for the first hex digit. The same happens whenever
the loop of `parseSegment` meets a `%`. -/
theorem parseRequestTarget_percent_escape_fails :
    parseRequestTarget (newCharStream (ascii "/a%2Fb ")) =
      (Result.err (Error.invalidDigit 37),
        { reader := ascii "2Fb ", hasPeek := false, peek := 37 }) ∧
    (∀ (fuel : Nat) (segment : Bytes) (chars : charStream) (rest : Bytes),
      chars.pending = 37 :: rest →
      parseSegmentLoop (fuel + 1) segment chars =
        (Result.err (Error.invalidDigit 37),
          { reader := rest, hasPeek := false, peek := 37 })) := by
  refine ⟨by decide, ?_⟩
  intro fuel segment chars rest h
  rw [parseSegmentLoop]
  rw [Parser.bind_ok _ _ _ _ _ (Peek_of_pending chars 37 rest h)]
  have hp : isSegmentPunct 37 = false := by decide
  simp only [hp, Bool.false_eq_true, if_false, if_true]
  unfold parseHexDigit
  rw [Parser.bind_apply, Parser.bind_apply,
    Next_of_pending ⟨rest, true, 37⟩ 37 rest rfl]
  rfl

/-- Claim C2, counterexample: a request with version HTTP/2.0 and no `Host`
value is answered with status 505, not 400. -/
theorem http2_without_host_gets_505 :
    mapGet ([] : HeaderMap) (ascii "Host") = [] ∧
    (Server.handleRequest (σ := Unit) { handlers := [] }
      { RequestLine := { Method := ascii "GET", Target := [[]], Version := 32 },
        Headers := [], RequestBody := [] }
      (newCharStream []) ()).1 = Result.ok HttpVersionNotSupported ∧
    HttpVersionNotSupported.Status = 505 := by
  decide

/-- Claim C2, amended: for every request with major version 1 whose header
mapping has no `Host` value, whatever the method, the cursor and the registered
handlers, `handleRequest` returns the response `BadRequest`, of status 400, and
leaves the cursor and the application state as they were. -/
theorem handleRequest_no_host {σ : Type} (server : Server σ) (request : HttpRequest)
    (chars : charStream) (w : σ)
    (hversion : request.RequestLine.Version >>> 4 = 1)
    (hhost : mapGet request.Headers (ascii "Host") = []) :
    server.handleRequest request chars w = (Result.ok BadRequest, chars, w) ∧
      BadRequest.Status = 400 := by
  refine ⟨?_, rfl⟩
  unfold Server.handleRequest
  simp [hversion, hhost]

theorem handleRequest_no_host_witness :
    (17 : Nat) >>> 4 = 1 ∧ mapGet [(ascii "Accept", [ascii "*/*"])] (ascii "Host") = [] ∧
    Server.handleRequest (σ := Unit) { handlers := [] }
      { RequestLine := { Method := ascii "POST", Target := [[]], Version := 17 },
        Headers := [(ascii "Accept", [ascii "*/*"])], RequestBody := [] }
      (newCharStream (ascii "rest")) () = (Result.ok BadRequest, newCharStream (ascii "rest"), ()) ∧
      BadRequest.Status = 400 :=
  ⟨by decide, by decide, handleRequest_no_host _ _ _ _ (by decide) (by decide)⟩

theorem getMismatch_eq_false (path target : List Bytes) (n i : Nat) :
    getMismatch path target n i = false ↔
      ∀ j, i ≤ j → j < i + n → path.getD j [] = target.getD j [] := by
  induction n generalizing i with
  | zero =>
    simp only [getMismatch, true_iff]
    intro j h1 h2
    omega
  | succ n ih =>
    simp only [getMismatch]
    by_cases h : path.getD i [] = target.getD i []
    · simp only [h, ne_eq, not_true_eq_false, if_false]
      rw [ih]
      constructor
      · intro hj j h1 h2
        rcases Nat.eq_or_lt_of_le h1 with rfl | h3
        · exact h
        · exact hj j h3 (by omega)
      · intro hj j h1 h2
        exact hj j (by omega) (by omega)
    · simp only [ne_eq, h, not_false_eq_true, if_true]
      constructor
      · intro hf
        cases hf
      · intro hj
        exact absurd (hj i (le_refl _) (by omega)) h

theorem getPredicate_eq {σ : Type} (p : List Bytes) (h : RequestHandler σ)
    (q : HttpRequest) (w : σ) :
    (((p.length = q.RequestLine.Target.length ∧
        ∀ i, i < p.length → p.getD i [] = q.RequestLine.Target.getD i []) ∧
      getPredicate p h q w = ((true, (h q w).1), (h q w).2)) ∨
    (¬ (p.length = q.RequestLine.Target.length ∧
        ∀ i, i < p.length → p.getD i [] = q.RequestLine.Target.getD i []) ∧
      getPredicate p h q w = ((false, HttpResponse.zero), w))) := by
  unfold getPredicate
  by_cases hl : p.length = q.RequestLine.Target.length
  · cases hm : getMismatch p q.RequestLine.Target p.length 0
    · have hall := (getMismatch_eq_false p q.RequestLine.Target p.length 0).1 hm
      left
      refine ⟨⟨hl, fun i hi => hall i (Nat.zero_le _) (by omega)⟩, ?_⟩
      simp only [hl, ne_eq, not_true_eq_false, if_false, hm, Bool.false_eq_true]
    · right
      refine ⟨?_, ?_⟩
      · rintro ⟨_, hall⟩
        have := (getMismatch_eq_false p q.RequestLine.Target p.length 0).2
          (fun j _ hj => hall j (by omega))
        rw [hm] at this
        cases this
      · simp only [hl, ne_eq, not_true_eq_false, if_false, hm, if_true]
  · right
    refine ⟨fun hc => hl hc.1, ?_⟩
    simp only [ne_eq, hl, not_false_eq_true, if_true]

/-- Claim C10: `Server.Get p h` appends one predicate to the handlers. On a
request `q` it returns `claimed = true` if and only if the target of `q` has as
many segments as `p` and each segment equals the segment of `p` at the same
index; when it claims, its response and the state it leaves are those of
`h q`; when it declines it returns `HttpResponse{}` and leaves the state
untouched whatever `h` is, that is, `h` is not called. -/
theorem Get_predicate {σ : Type} (server : Server σ) (p : List Bytes) (h : RequestHandler σ)
    (q : HttpRequest) (w : σ) :
    (server.Get p h).handlers = server.handlers ++ [getPredicate p h] ∧
    (((getPredicate p h q w).1.1 = true) ↔
      (p.length = q.RequestLine.Target.length ∧
        ∀ i, i < p.length → p.getD i [] = q.RequestLine.Target.getD i [])) ∧
    ((getPredicate p h q w).1.1 = true →
      getPredicate p h q w = ((true, (h q w).1), (h q w).2)) ∧
    ((getPredicate p h q w).1.1 = false →
      getPredicate p h q w = ((false, HttpResponse.zero), w)) := by
  refine ⟨rfl, ?_, ?_, ?_⟩
  · rcases getPredicate_eq p h q w with ⟨hc, he⟩ | ⟨hc, he⟩
    · rw [he]; exact ⟨fun _ => hc, fun _ => rfl⟩
    · rw [he]; exact ⟨fun hf => (by cases hf), fun hp => absurd hp hc⟩
  · rcases getPredicate_eq p h q w with ⟨hc, he⟩ | ⟨hc, he⟩
    · intro _; exact he
    · rw [he]; intro hf; cases hf
  · rcases getPredicate_eq p h q w with ⟨hc, he⟩ | ⟨hc, he⟩
    · rw [he]; intro hf; cases hf
    · intro _; exact he

theorem handleRequest_version {σ : Type} (server : Server σ) (request : HttpRequest)
    (chars : charStream) (w : σ) (a b : Nat) (ha : a ≤ 9) (hb : b ≤ 9) (ha1 : a ≠ 1)
    (hv : request.RequestLine.Version = 16 * a + b) :
    server.handleRequest request chars w = (Result.ok HttpVersionNotSupported, chars, w) := by
  unfold Server.handleRequest
  have : request.RequestLine.Version >>> 4 ≠ 1 := by
    rw [hv, Nat.shiftRight_eq_div_pow]
    omega
  simp [this]

theorem rangeHandlersHead_eq {σ : Type} (hs : List (Handler σ)) (qG qH : HttpRequest) (w : σ)
    (hagree : ∀ h ∈ hs, ∀ w, h qG w = h qH w) :
    rangeHandlersHead hs qH w =
      ({ (rangeHandlersGet hs qG w).1 with ResponseBody := [] }, (rangeHandlersGet hs qG w).2) := by
  induction hs generalizing w with
  | nil => rfl
  | cons a hs ih =>
    have ha := hagree a (List.mem_cons_self _ _) w
    simp only [rangeHandlersHead, rangeHandlersGet]
    rw [← ha]
    rcases hq : a qG w with ⟨⟨claimed, resp⟩, wa⟩
    cases claimed
    · simp only
      exact ih wa (fun h hh => hagree h (List.mem_cons_of_mem _ hh))
    · rfl

theorem declineAll_agree {σ : Type} (hs : List (Handler σ)) (qG qH : HttpRequest) (w : σ)
    (hagree : ∀ h ∈ hs, ∀ w, h qG w = h qH w) :
    declineAll hs qH w = declineAll hs qG w := by
  induction hs generalizing w with
  | nil => rfl
  | cons a hs ih =>
    have ha := hagree a (List.mem_cons_self _ _) w
    simp only [declineAll]
    rw [← ha]
    rcases hq : a qG w with ⟨⟨claimed, resp⟩, wa⟩
    cases claimed
    · simp only
      exact ih wa (fun h hh => hagree h (List.mem_cons_of_mem _ hh))
    · rfl

theorem rangeHandlersGet_decline {σ : Type} (hs : List (Handler σ))
    (request : HttpRequest) (w w1 : σ) (hall : declineAll hs request w = some w1) :
    rangeHandlersGet hs request w = (NotFound, w1) := by
  induction hs generalizing w with
  | nil =>
    simp [declineAll] at hall
    subst hall
    rfl
  | cons a hs ih =>
    simp only [declineAll] at hall
    rcases ha : a request w with ⟨⟨claimed, resp⟩, wa⟩
    rw [ha] at hall
    cases claimed
    · simp at hall
      simp only [rangeHandlersGet, ha]
      exact ih wa hall
    · simp at hall

theorem ToUpper_ne {m1 : Bytes} : ToUpper m1 = ascii "HEAD" → ToUpper m1 ≠ ascii "GET" := by
  intro h1 h2
  rw [h1] at h2
  revert h2
  decide

theorem dispatch_head_of_get {σ : Type} (server : Server σ) (target : List Bytes)
    (version : Nat) (headers : HeaderMap) (body : Bytes) (mG mH : Bytes)
    (chars chars1 : charStream) (w w1 : σ) (r : HttpResponse)
    (hG : ToUpper mG = ascii "GET") (hH : ToUpper mH = ascii "HEAD")
    (hagree : ∀ h ∈ server.handlers, ∀ w,
      h { RequestLine := { Method := mG, Target := target, Version := version },
          Headers := headers, RequestBody := body } w =
      h { RequestLine := { Method := mH, Target := target, Version := version },
          Headers := headers, RequestBody := body } w)
    (hget : server.handleRequestDispatch
      { RequestLine := { Method := mG, Target := target, Version := version },
        Headers := headers, RequestBody := body } chars w = (Result.ok r, chars1, w1)) :
    server.handleRequestDispatch
      { RequestLine := { Method := mH, Target := target, Version := version },
        Headers := headers, RequestBody := body } chars w =
      (Result.ok { r with ResponseBody := [] }, chars1, w1) := by
  unfold Server.handleRequestDispatch at hget ⊢
  simp only at hget ⊢
  cases he : mapGet headers (ascii "Expect") with
  | cons e rest =>
    rw [he] at hget
    simp only at hget ⊢
    by_cases hc : e = ascii "100-continue"
    · simp [hc] at hget
    · simp only [hc, if_false] at hget ⊢
      cases hget
      rfl
  | nil =>
    rw [he] at hget
    simp only [hG, if_true] at hget
    simp only [ToUpper_ne hH, hH, if_true, if_false]
    rw [rangeHandlersHead_eq server.handlers _ _ w hagree]
    cases hget
    rfl

/-- Claim C5, amended: let two requests of major version 1 differ only in the
method, GET for one and HEAD for the other, in any letter case, and let every
registered handler answer the two alike. If `handleRequest` answers the GET
request with `r`, it answers the HEAD request with the status and the headers
of `r` and an empty body, leaving the same cursor and state. If the GET request
passes the checks and no handler claims it, both answers are `NotFound`, of
status 404. -/
theorem handleRequest_head_of_get {σ : Type} (server : Server σ) (target : List Bytes)
    (version : Nat) (headers : HeaderMap) (body : Bytes) (mG mH : Bytes)
    (chars : charStream) (w : σ)
    (hG : ToUpper mG = ascii "GET") (hH : ToUpper mH = ascii "HEAD")
    (hversion : version >>> 4 = 1)
    (hagree : ∀ h ∈ server.handlers, ∀ b w,
      h { RequestLine := { Method := mG, Target := target, Version := version },
          Headers := headers, RequestBody := b } w =
      h { RequestLine := { Method := mH, Target := target, Version := version },
          Headers := headers, RequestBody := b } w) :
    (∀ r chars1 w1,
      server.handleRequest
        { RequestLine := { Method := mG, Target := target, Version := version },
          Headers := headers, RequestBody := body } chars w = (Result.ok r, chars1, w1) →
      server.handleRequest
        { RequestLine := { Method := mH, Target := target, Version := version },
          Headers := headers, RequestBody := body } chars w =
        (Result.ok { Status := r.Status, Headers := r.Headers, ResponseBody := [] }, chars1, w1)) ∧
    (∀ q1 chars1 w1,
      passesChecks
        { RequestLine := { Method := mG, Target := target, Version := version },
          Headers := headers, RequestBody := body } chars q1 chars1 →
      declineAll server.handlers q1 w = some w1 →
      server.handleRequest
        { RequestLine := { Method := mG, Target := target, Version := version },
          Headers := headers, RequestBody := body } chars w = (Result.ok NotFound, chars1, w1) ∧
      server.handleRequest
        { RequestLine := { Method := mH, Target := target, Version := version },
          Headers := headers, RequestBody := body } chars w = (Result.ok NotFound, chars1, w1) ∧
      NotFound.Status = 404) := by
  have part1 : ∀ r chars1 w1,
      server.handleRequest
        { RequestLine := { Method := mG, Target := target, Version := version },
          Headers := headers, RequestBody := body } chars w = (Result.ok r, chars1, w1) →
      server.handleRequest
        { RequestLine := { Method := mH, Target := target, Version := version },
          Headers := headers, RequestBody := body } chars w =
        (Result.ok { Status := r.Status, Headers := r.Headers, ResponseBody := [] }, chars1, w1) := by
    intro r chars1 w1 hget
    unfold Server.handleRequest at hget ⊢
    simp only [hversion, ne_eq, not_true_eq_false, if_false] at hget ⊢
    by_cases h1 : (mapGet headers (ascii "Host")).length = 1
    · simp only [h1, not_true_eq_false, if_false] at hget ⊢
      by_cases h2 : (mapGet headers (ascii "Content-Length")).length > 1
      · simp only [h2, if_true] at hget ⊢
        cases hget; rfl
      · simp only [h2, if_false] at hget ⊢
        by_cases h3 : (mapGet headers (ascii "Content-Length")).length = 1
        · simp only [h3, if_true] at hget ⊢
          cases hp : ParseInt ((mapGet headers (ascii "Content-Length")).headD []) with
          | none =>
            rw [hp] at hget
            simp only at hget ⊢
            cases hget; rfl
          | some n =>
            rw [hp] at hget
            simp only at hget ⊢
            by_cases h4 : n < 0
            · simp only [h4, if_true] at hget ⊢
              cases hget; rfl
            · simp only [h4, if_false] at hget ⊢
              rcases hr : charStream.Read n.toNat chars with ⟨res, c2⟩
              rw [hr] at hget
              cases res with
              | ok b =>
                simp only at hget ⊢
                exact dispatch_head_of_get server target version headers b mG mH c2 chars1 w w1 r
                  hG hH (fun h hh w => hagree h hh b w) hget
              | err e => simp at hget
              | panic msg => simp at hget
              | diverge => simp at hget
        · simp only [h3, if_false] at hget ⊢
          exact dispatch_head_of_get server target version headers body mG mH chars chars1 w w1 r
            hG hH (fun h hh w => hagree h hh body w) hget
    · simp only [h1, not_false_eq_true, if_true] at hget ⊢
      cases hget; rfl
  refine ⟨part1, ?_⟩
  intro q1 chars1 w1 hpass hall
  have hget : server.handleRequest
        { RequestLine := { Method := mG, Target := target, Version := version },
          Headers := headers, RequestBody := body } chars w = (Result.ok NotFound, chars1, w1) := by
    rw [handleRequest_of_passesChecks server _ q1 chars chars1 w hpass]
    unfold Server.handleRequestDispatch
    rw [passesChecks_expect hpass]
    have hm : q1.RequestLine.Method = mG := by rw [passesChecks_method hpass]
    simp only [hm, hG, if_true]
    rw [rangeHandlersGet_decline server.handlers q1 w w1 hall]
  exact ⟨hget, part1 _ _ _ hget, rfl⟩

theorem rangeHandlersGet_claim {σ : Type} (pre : List (Handler σ)) (h : Handler σ)
    (post : List (Handler σ)) (request : HttpRequest) (r : HttpResponse) (w w1 w2 : σ)
    (hpre : declineAll pre request w = some w1) (hh : h request w1 = ((true, r), w2)) :
    rangeHandlersGet (pre ++ h :: post) request w = (r, w2) := by
  induction pre generalizing w with
  | nil =>
    simp [declineAll] at hpre
    subst hpre
    simp [rangeHandlersGet, hh]
  | cons a pre ih =>
    simp only [declineAll] at hpre
    rcases ha : a request w with ⟨⟨claimed, resp⟩, wa⟩
    rw [ha] at hpre
    cases claimed
    · simp at hpre
      simp only [List.cons_append, rangeHandlersGet, ha]
      exact ih wa hpre
    · simp at hpre

theorem dispatch_get {σ : Type} (server : Server σ) (request q1 : HttpRequest)
    (chars chars1 : charStream) (w : σ)
    (hpass : passesChecks request chars q1 chars1)
    (hget : ToUpper request.RequestLine.Method = ascii "GET") :
    server.handleRequest request chars w =
      (Result.ok (rangeHandlersGet server.handlers q1 w).1, chars1,
        (rangeHandlersGet server.handlers q1 w).2) := by
  rw [handleRequest_of_passesChecks server _ q1 chars chars1 w hpass]
  unfold Server.handleRequestDispatch
  rw [passesChecks_expect hpass]
  have hm : q1.RequestLine = request.RequestLine := passesChecks_method hpass
  simp only [hm, hget, if_true]

/-- Claim C6: let a request pass the version, Host, Content-Length and Expect
checks, `q1` being the request once its body is read, and let its method be
GET in any letter case. If the handlers before `h` all decline `q1` and `h`
claims it with response `r`, then `handleRequest` returns `r` itself, and the
calls it makes are exactly those to the handlers up to `h`, in registration
order, none being made to a handler after `h`. If all handlers decline, which
includes the empty list, it returns `NotFound`, of status 404 and empty body,
after calling each handler once. -/
theorem handleRequest_get_first_claim {σ : Type} (hs : List (Handler σ))
    (request q1 : HttpRequest) (chars chars1 : charStream) (w : σ)
    (hpass : passesChecks request chars q1 chars1)
    (hget : ToUpper request.RequestLine.Method = ascii "GET") :
    (∀ pre h post r w1 w2, hs = pre ++ h :: post →
      declineAll pre q1 w = some w1 → h q1 w1 = ((true, r), w2) →
      Server.handleRequest { handlers := hs } request chars w = (Result.ok r, chars1, w2) ∧
      Server.handleRequest { handlers := observedFrom 0 hs } request chars (w, []) =
        (Result.ok r, chars1, (w2, callsFrom q1 0 (pre.length + 1)))) ∧
    (∀ w1, declineAll hs q1 w = some w1 →
      Server.handleRequest { handlers := hs } request chars w =
        (Result.ok NotFound, chars1, w1) ∧
      Server.handleRequest { handlers := observedFrom 0 hs } request chars (w, []) =
        (Result.ok NotFound, chars1, (w1, callsFrom q1 0 hs.length)) ∧
      NotFound.Status = 404 ∧ NotFound.ResponseBody = []) := by
  refine ⟨?_, ?_⟩
  · intro pre h post r w1 w2 hhs hpre hh
    subst hhs
    refine ⟨?_, ?_⟩
    · rw [dispatch_get _ request q1 chars chars1 w hpass hget]
      simp only [rangeHandlersGet_claim pre h post q1 r w w1 w2 hpre hh]
    · rw [dispatch_get _ request q1 chars chars1 (w, []) hpass hget]
      simp only [rangeHandlersGet_observed_claim pre h post q1 r w w1 w2 0 [] hpre hh,
        List.nil_append]
  · intro w1 hall
    refine ⟨?_, ?_, rfl, rfl⟩
    · rw [dispatch_get _ request q1 chars chars1 w hpass hget]
      simp only [rangeHandlersGet_decline hs q1 w w1 hall]
    · rw [dispatch_get _ request q1 chars chars1 (w, []) hpass hget]
      simp only [rangeHandlersGet_observed_decline hs q1 w w1 0 [] hall, List.nil_append]

/-- Claim C5, counterexample: a handler that claims a request only when its
method is `GET` makes `handleRequest` answer the GET request with status 200
and the HEAD request, equal in all but the method, with status 404. -/
theorem handleRequest_head_method_aware_handler :
    (Server.handleRequest (σ := Unit)
      { handlers := [fun request w =>
          ((decide (request.RequestLine.Method = ascii "GET"), Ok (ascii "hi")), w)] }
      { RequestLine := { Method := ascii "GET", Target := [ascii "x"], Version := 17 },
        Headers := [(ascii "Host", [ascii "a"])], RequestBody := [] }
      (newCharStream []) ()).1 = Result.ok (Ok (ascii "hi")) ∧
    (Server.handleRequest (σ := Unit)
      { handlers := [fun request w =>
          ((decide (request.RequestLine.Method = ascii "GET"), Ok (ascii "hi")), w)] }
      { RequestLine := { Method := ascii "HEAD", Target := [ascii "x"], Version := 17 },
        Headers := [(ascii "Host", [ascii "a"])], RequestBody := [] }
      (newCharStream []) ()).1 = Result.ok NotFound ∧
    (Ok (ascii "hi")).Status = 200 ∧ NotFound.Status = 404 := by
  decide

theorem handleRequest_head_of_get_witness :
    ToUpper (ascii "get") = ascii "GET" ∧ ToUpper (ascii "Head") = ascii "HEAD" ∧
    (17 : Nat) >>> 4 = 1 ∧
    Server.handleRequest (σ := Unit)
      { handlers := [getPredicate [ascii "x"] (fun _ w => (Ok (ascii "hi"), w))] }
      { RequestLine := { Method := ascii "Head", Target := [ascii "x"], Version := 17 },
        Headers := [(ascii "Host", [ascii "a"])], RequestBody := [] }
      (newCharStream []) () =
      (Result.ok { Status := 200, Headers := [], ResponseBody := [] }, newCharStream [], ()) :=
  ⟨by decide, by decide, by decide,
    (handleRequest_head_of_get (σ := Unit)
      { handlers := [getPredicate [ascii "x"] (fun _ w => (Ok (ascii "hi"), w))] }
      [ascii "x"] 17 [(ascii "Host", [ascii "a"])] [] (ascii "get") (ascii "Head")
      (newCharStream []) () (by decide) (by decide) (by decide)
      (by
        intro h hh b w
        simp only [List.mem_singleton] at hh
        subst hh
        rfl)).1 (Ok (ascii "hi")) (newCharStream []) () (by decide)⟩

theorem handleRequest_get_first_claim_witness :
    passesChecks
      { RequestLine := { Method := ascii "GET", Target := [ascii "x"], Version := 17 },
        Headers := [(ascii "Host", [ascii "a"])], RequestBody := [] } (newCharStream [])
      { RequestLine := { Method := ascii "GET", Target := [ascii "x"], Version := 17 },
        Headers := [(ascii "Host", [ascii "a"])], RequestBody := [] } (newCharStream []) ∧
    Server.handleRequest (σ := Unit × CallLog)
      { handlers := observedFrom 0
          [getPredicate [ascii "y"] (fun _ w => (Ok (ascii "no"), w)),
            getPredicate [ascii "x"] (fun _ w => (Ok (ascii "hi"), w)),
            getPredicate [ascii "x"] (fun _ w => (Ok (ascii "late"), w))] }
      { RequestLine := { Method := ascii "GET", Target := [ascii "x"], Version := 17 },
        Headers := [(ascii "Host", [ascii "a"])], RequestBody := [] }
      (newCharStream []) ((), []) =
      (Result.ok (Ok (ascii "hi")), newCharStream [],
        ((), [(0, { RequestLine := { Method := ascii "GET", Target := [ascii "x"], Version := 17 },
                    Headers := [(ascii "Host", [ascii "a"])], RequestBody := [] }),
              (1, { RequestLine := { Method := ascii "GET", Target := [ascii "x"], Version := 17 },
                    Headers := [(ascii "Host", [ascii "a"])], RequestBody := [] })])) :=
  ⟨⟨by decide, by decide, Or.inl ⟨by decide, rfl, rfl⟩, by decide⟩,
    ((handleRequest_get_first_claim (σ := Unit)
      [getPredicate [ascii "y"] (fun _ w => (Ok (ascii "no"), w)),
        getPredicate [ascii "x"] (fun _ w => (Ok (ascii "hi"), w)),
        getPredicate [ascii "x"] (fun _ w => (Ok (ascii "late"), w))]
      _ _ (newCharStream []) (newCharStream []) ()
      ⟨by decide, by decide, Or.inl ⟨by decide, rfl, rfl⟩, by decide⟩ (by decide)).1
      [getPredicate [ascii "y"] (fun _ w => (Ok (ascii "no"), w))]
      (getPredicate [ascii "x"] (fun _ w => (Ok (ascii "hi"), w)))
      [getPredicate [ascii "x"] (fun _ w => (Ok (ascii "late"), w))]
      (Ok (ascii "hi")) () () rfl (by decide) (by decide)).2⟩

/-! ## Serialization -/

/-- Claim C7 (the code fails the claim): `unparse` writes one space more than
the stated format, between the reason phrase and the CRLF of the status line.
For every response its output is one byte longer than the stated rendering
`unparseSpec`, and for the response `NotFound` it is
`HTTP/1.1 404 Not Found \r\n\r\n`, the stated rendering being
`HTTP/1.1 404 Not Found\r\n\r\n`. -/
theorem unparse_space_before_CRLF :
    (∀ r : HttpResponse, (unparse r).length = (unparseSpec r).length + 1) ∧
    (∀ r : HttpResponse, unparse r =
      ascii "HTTP/1.1 " ++ FormatInt r.Status ++ ascii " " ++ reasonPhrases r.Status ++
        ascii " \r\n" ++ unparseHeaders r.Headers ++ ascii "\r\n" ++ r.ResponseBody) ∧
    unparse NotFound = ascii "HTTP/1.1 404 Not Found \r\n\r\n" ∧
    unparseSpec NotFound = ascii "HTTP/1.1 404 Not Found\r\n\r\n" := by
  refine ⟨?_, ?_, by decide, by decide⟩
  · intro r
    simp only [unparse, unparseSpec, List.length_append, ascii, String.toList, List.length_map,
      List.length_cons, List.length_nil]
    omega
  · intro r
    simp only [unparse, ascii, String.toList, List.map, List.append_assoc, List.cons_append,
      List.nil_append, Char.toNat]
    rfl

/-- Claim C8 (the code fails the claim): with no handler registered, the bytes
written for `GET /x HTTP/1.1\r\nHost: a\r\n\r\n` are
`HTTP/1.1 404 Not Found \r\n\r\n`, which do not begin with
`HTTP/1.1 404 Not Found\r\n\r\n`, and the bytes written for
`GET / HTTP/1.1\r\nHost: a\r\nExpect: bogus\r\n\r\n` are
`HTTP/1.1 417 Expectation Failed \r\n\r\n`, with a space before the first CRLF. -/
theorem handleConnection_scenarios :
    (Server.handleConnection (σ := Unit) { handlers := [] }
      (ascii "GET /x HTTP/1.1\r\nHost: a\r\n\r\n") ()).1 =
      Result.ok (ascii "HTTP/1.1 404 Not Found \r\n\r\n") ∧
    ¬ (ascii "HTTP/1.1 404 Not Found\r\n\r\n" <+: ascii "HTTP/1.1 404 Not Found \r\n\r\n") ∧
    (Server.handleConnection (σ := Unit) { handlers := [] }
      (ascii "GET / HTTP/1.1\r\nHost: a\r\nExpect: bogus\r\n\r\n") ()).1 =
      Result.ok (ascii "HTTP/1.1 417 Expectation Failed \r\n\r\n") ∧
    ascii "HTTP/1.1 417 Expectation Failed \r\n\r\n" ≠
      ascii "HTTP/1.1 417 Expectation Failed\r\n\r\n" := by
  refine ⟨by decide!, by decide, by decide!, by decide⟩

/-! ## Parsing well-formed input -/

theorem pending_mk (rd : Bytes) (pk : Nat) :
    (charStream.mk rd false pk).pending = rd := rfl

theorem pending_mk_peek (rd : Bytes) (pk : Nat) :
    (charStream.mk rd true pk).pending = pk :: rd := rfl

theorem budget_ge (chars : charStream) : chars.pending.length + 1 ≤ chars.budget := by
  obtain ⟨rd, hp, pk⟩ := chars
  cases hp <;> simp [charStream.pending, charStream.budget]

theorem Expect_of_pending (lit : Bytes) (e : Nat) (chars : charStream) (rest : Bytes)
    (h : chars.pending = e :: lit ++ rest) :
    charStream.Expect (e :: lit) chars =
      (Result.ok (), { reader := rest, hasPeek := false, peek := chars.peek }) := by
  induction lit generalizing e chars with
  | nil =>
    simp only [charStream.Expect]
    rw [Parser.bind_ok _ _ _ _ _ (Next_of_pending chars e rest h)]
    simp [charStream.Expect, Parser.pure]
  | cons e1 lit ih =>
    rw [charStream.Expect]
    rw [Parser.bind_ok _ _ _ _ _ (Next_of_pending chars e _ h)]
    simp only [ne_eq, not_true_eq_false, if_false]
    exact ih e1 _ rfl

theorem parseDigit_of_pending (d : Nat) (hd : d ≤ 9) (chars : charStream) (rest : Bytes)
    (h : chars.pending = (48 + d) :: rest) :
    parseDigit chars = (Result.ok d, { reader := rest, hasPeek := false, peek := chars.peek }) := by
  unfold parseDigit
  rw [Parser.bind_ok _ _ _ _ _ (Next_of_pending chars _ rest h)]
  have h1 : ¬ (48 + d = 0) := by omega
  have h2 : ¬ (48 + d < 48 ∨ 48 + d > 57) := by omega
  have h3 : (48 + d - 48) % 256 = d := by omega
  simp only [h1, h2, if_false, h3]
  rfl

theorem version_pack (a b : Nat) (ha : a ≤ 9) (hb : b ≤ 9) :
    ((a <<< 4) % 256) ||| b = 16 * a + b := by
  interval_cases a <;> interval_cases b <;> rfl

theorem parseHttpVersion_of_pending (a b : Nat) (ha : a ≤ 9) (hb : b ≤ 9) (chars : charStream)
    (rest : Bytes)
    (h : chars.pending = ascii "HTTP/" ++ (48 + a) :: 46 :: (48 + b) :: rest) :
    parseHttpVersion chars =
      (Result.ok (16 * a + b), { reader := rest, hasPeek := false, peek := chars.peek }) := by
  unfold parseHttpVersion
  have e1 : charStream.Expect (ascii "HTTP/") chars =
      (Result.ok (),
        { reader := (48 + a) :: 46 :: (48 + b) :: rest, hasPeek := false, peek := chars.peek }) :=
    Expect_of_pending [84, 84, 80, 47] 72 chars _ h
  rw [Parser.bind_ok _ _ _ _ _ e1]
  rw [Parser.bind_ok _ _ _ _ _ (parseDigit_of_pending a ha ⟨_, false, _⟩ _ rfl)]
  have e2 : charStream.Expect (ascii ".")
      { reader := 46 :: (48 + b) :: rest, hasPeek := false, peek := chars.peek } =
      (Result.ok (), { reader := (48 + b) :: rest, hasPeek := false, peek := chars.peek }) :=
    Expect_of_pending [] 46 _ _ rfl
  rw [Parser.bind_ok _ _ _ _ _ e2]
  rw [Parser.bind_ok _ _ _ _ _ (parseDigit_of_pending b hb ⟨_, false, _⟩ _ rfl)]
  rw [version_pack a b ha hb]
  rfl

theorem isTokenChar_lt {x : Nat} (h : isTokenChar x = true) : x < 128 := by
  simp only [isTokenChar, Bool.or_eq_true, Bool.and_eq_true, decide_eq_true_eq] at h
  omega

theorem stringOfByte_of_lt {x : Nat} (h : x < 128) : stringOfByte x = [x] := by
  simp [stringOfByte, h]

theorem parseTokenLoop_of_pending (tok : Bytes) (c : Nat) (rest : Bytes)
    (htok : ∀ x ∈ tok, isTokenChar x = true) (hc : isTokenChar c = false)
    (fuel : Nat) (hfuel : tok.length + 1 ≤ fuel) (acc : Bytes) (chars : charStream)
    (h : chars.pending = tok ++ c :: rest) :
    parseTokenLoop fuel acc chars =
      (Result.ok (acc ++ tok), { reader := rest, hasPeek := true, peek := c }) := by
  induction tok generalizing fuel acc chars with
  | nil =>
    obtain ⟨fuel, rfl⟩ : ∃ n, fuel = n + 1 := ⟨fuel - 1, by simp at hfuel; omega⟩
    rw [parseTokenLoop]
    rw [Parser.bind_ok _ _ _ _ _ (Peek_of_pending chars c rest h)]
    simp only [hc, Bool.false_eq_true, if_false, List.append_nil]
    rfl
  | cons x tok ih =>
    obtain ⟨fuel, rfl⟩ : ∃ n, fuel = n + 1 := ⟨fuel - 1, by simp at hfuel; omega⟩
    have hx : isTokenChar x = true := htok x (List.mem_cons_self _ _)
    rw [parseTokenLoop]
    rw [Parser.bind_ok _ _ _ _ _ (Peek_of_pending chars x _ h)]
    simp only [hx, if_true]
    rw [Parser.bind_ok _ _ _ _ _ (Next_of_pending ⟨_, true, _⟩ x _ rfl)]
    rw [stringOfByte_of_lt (isTokenChar_lt hx)]
    refine (ih (fun y hy => htok y (List.mem_cons_of_mem _ hy)) fuel
      (by simp at hfuel; omega) (acc ++ [x]) ⟨tok ++ c :: rest, false, x⟩ rfl).trans ?_
    simp

theorem parseToken_of_pending (tok : Bytes) (c : Nat) (rest : Bytes)
    (htok : ∀ x ∈ tok, isTokenChar x = true) (hc : isTokenChar c = false)
    (chars : charStream) (h : chars.pending = tok ++ c :: rest) :
    parseToken chars =
      (Result.ok tok, { reader := rest, hasPeek := true, peek := c }) := by
  show parseTokenLoop chars.budget [] chars = _
  have hb := budget_ge chars
  rw [h] at hb
  simp only [List.length_append, List.length_cons] at hb
  rw [parseTokenLoop_of_pending tok c rest htok hc _ (by omega) [] chars h]
  simp

theorem isSegmentChar_lt {x : Nat} (h : isSegmentChar x = true) : x < 128 := by
  simp only [isSegmentChar, isSegmentPunct, notAlnum, Bool.or_eq_true, Bool.and_eq_true,
    decide_eq_true_eq, Bool.not_eq_true', Bool.and_eq_false_iff, Bool.or_eq_false_iff,
    decide_eq_false_iff_not] at h
  omega

theorem isSegmentChar_ne {x : Nat} (h : isSegmentChar x = true) : x ≠ 37 := by
  simp only [isSegmentChar, isSegmentPunct, notAlnum, Bool.or_eq_true, Bool.and_eq_true,
    decide_eq_true_eq, Bool.not_eq_true', Bool.and_eq_false_iff, Bool.or_eq_false_iff,
    decide_eq_false_iff_not] at h
  omega

theorem parseSegmentLoop_of_pending (seg : Bytes) (c : Nat) (rest : Bytes)
    (hseg : ∀ x ∈ seg, isSegmentChar x = true) (hc : isSegmentStop c = true)
    (fuel : Nat) (hfuel : seg.length + 1 ≤ fuel) (acc : Bytes) (chars : charStream)
    (h : chars.pending = seg ++ c :: rest) :
    parseSegmentLoop fuel acc chars =
      (Result.ok (acc ++ seg), { reader := rest, hasPeek := true, peek := c }) := by
  induction seg generalizing fuel acc chars with
  | nil =>
    obtain ⟨fuel, rfl⟩ : ∃ n, fuel = n + 1 := ⟨fuel - 1, by simp at hfuel; omega⟩
    rw [parseSegmentLoop]
    rw [Parser.bind_ok _ _ _ _ _ (Peek_of_pending chars c rest h)]
    simp only [isSegmentStop, Bool.and_eq_true, Bool.not_eq_true', decide_eq_false_iff_not] at hc
    obtain ⟨⟨h1, h2⟩, h3⟩ := hc
    simp only [h1, h2, h3, Bool.false_eq_true, if_false, if_true, List.append_nil]
    rfl
  | cons x seg ih =>
    obtain ⟨fuel, rfl⟩ : ∃ n, fuel = n + 1 := ⟨fuel - 1, by simp at hfuel; omega⟩
    have hx : isSegmentChar x = true := hseg x (List.mem_cons_self _ _)
    have hrec := ih (fun y hy => hseg y (List.mem_cons_of_mem _ hy)) fuel
      (by simp at hfuel; omega) (acc ++ [x]) ⟨seg ++ c :: rest, false, x⟩ rfl
    rw [parseSegmentLoop]
    rw [Parser.bind_ok _ _ _ _ _ (Peek_of_pending chars x _ h)]
    rw [stringOfByte_of_lt (isSegmentChar_lt hx)]
    by_cases hp : isSegmentPunct x = true
    · simp only [hp, if_true]
      rw [Parser.bind_ok _ _ _ _ _ (Next_of_pending ⟨_, true, _⟩ x _ rfl)]
      refine hrec.trans ?_
      simp
    · have hn : notAlnum x = false := by
        simp only [isSegmentChar, Bool.or_eq_true, Bool.not_eq_true'] at hx
        rcases hx with hx | hx
        · exact absurd hx hp
        · exact hx
      simp only [hp, if_false, isSegmentChar_ne hx, hn, Bool.false_eq_true]
      rw [Parser.bind_ok _ _ _ _ _ (Next_of_pending ⟨_, true, _⟩ x _ rfl)]
      refine hrec.trans ?_
      simp

theorem parseSegment_of_pending (seg : Bytes) (c : Nat) (rest : Bytes)
    (hseg : ∀ x ∈ seg, isSegmentChar x = true) (hc : isSegmentStop c = true)
    (chars : charStream) (h : chars.pending = 47 :: seg ++ c :: rest) :
    parseSegment chars =
      (Result.ok seg, { reader := rest, hasPeek := true, peek := c }) := by
  unfold parseSegment
  rw [Parser.bind_ok _ _ _ _ _ (Expect_of_pending [] 47 chars (seg ++ c :: rest) (by simpa using h))]
  show parseSegmentLoop (seg ++ c :: rest).length.succ.succ [] _ = _
  refine (parseSegmentLoop_of_pending seg c rest hseg hc _ ?_ [] ⟨_, false, _⟩ rfl).trans ?_
  · simp only [List.length_append, List.length_cons]
    omega
  · simp

theorem renderTarget_stop (segs : List Bytes) (c : Nat) (rest : Bytes)
    (hc : isSegmentStop c = true) :
    ∃ c1 rest1, renderTarget segs ++ c :: rest = c1 :: rest1 ∧ isSegmentStop c1 = true := by
  cases segs with
  | nil => exact ⟨c, rest, rfl, hc⟩
  | cons seg segs => exact ⟨47, _, rfl, by decide⟩

theorem parseOriginFormLoop_of_pending (segs : List Bytes) (c : Nat) (rest : Bytes)
    (hsegs : ∀ seg ∈ segs, ∀ x ∈ seg, isSegmentChar x = true)
    (hc : isSegmentStop c = true) (hc47 : c ≠ 47)
    (fuel : Nat) (hfuel : segs.length + 1 ≤ fuel) (acc : List Bytes) (chars : charStream)
    (h : chars.pending = renderTarget segs ++ c :: rest) :
    parseOriginFormLoop fuel acc chars =
      (Result.ok (acc ++ segs), { reader := rest, hasPeek := true, peek := c }) := by
  induction segs generalizing fuel acc chars with
  | nil =>
    obtain ⟨fuel, rfl⟩ : ∃ n, fuel = n + 1 := ⟨fuel - 1, by simp at hfuel; omega⟩
    rw [parseOriginFormLoop]
    rw [Parser.bind_ok _ _ _ _ _ (Peek_of_pending chars c rest (by simpa [renderTarget] using h))]
    simp only [ne_eq, hc47, not_false_eq_true, if_true, List.append_nil]
    rfl
  | cons seg segs ih =>
    obtain ⟨fuel, rfl⟩ : ∃ n, fuel = n + 1 := ⟨fuel - 1, by simp at hfuel; omega⟩
    rw [parseOriginFormLoop]
    have h1 : chars.pending = 47 :: (seg ++ (renderTarget segs ++ c :: rest)) := by
      simpa [renderTarget] using h
    rw [Parser.bind_ok _ _ _ _ _ (Peek_of_pending chars 47 _ h1)]
    simp only [ne_eq, not_true_eq_false, if_false]
    obtain ⟨c1, rest1, hr, hc1⟩ := renderTarget_stop segs c rest hc
    have hseg := parseSegment_of_pending seg c1 rest1
      (hsegs seg (List.mem_cons_self _ _)) hc1
      ⟨seg ++ (renderTarget segs ++ c :: rest), true, 47⟩ (by rw [hr]; rfl)
    rw [Parser.bind_ok _ _ _ _ _ hseg]
    refine (ih (fun s hs => hsegs s (List.mem_cons_of_mem _ hs)) fuel
      (by simp at hfuel; omega) (acc ++ [seg]) ⟨rest1, true, c1⟩ (by rw [hr]; rfl)).trans ?_
    simp

theorem length_le_renderTarget (segs : List Bytes) :
    segs.length ≤ (renderTarget segs).length := by
  induction segs with
  | nil => simp
  | cons s segs ih =>
    simp only [renderTarget, List.length_cons, List.length_append]
    omega

theorem parseRequestTarget_of_pending (seg : Bytes) (segs : List Bytes) (c : Nat) (rest : Bytes)
    (hsegs : ∀ s ∈ seg :: segs, ∀ x ∈ s, isSegmentChar x = true)
    (hc : isSegmentStop c = true) (hc47 : c ≠ 47) (chars : charStream)
    (h : chars.pending = renderTarget (seg :: segs) ++ c :: rest) :
    parseRequestTarget chars =
      (Result.ok (seg :: segs), { reader := rest, hasPeek := true, peek := c }) := by
  unfold parseRequestTarget
  have h1 : chars.pending = 47 :: (seg ++ (renderTarget segs ++ c :: rest)) := by
    simpa [renderTarget] using h
  rw [Parser.bind_ok _ _ _ _ _ (Peek_of_pending chars 47 _ h1)]
  simp only [if_true]
  show parseOriginFormLoop (seg ++ (renderTarget segs ++ c :: rest)).length.succ.succ [] _ = _
  refine (parseOriginFormLoop_of_pending (seg :: segs) c rest hsegs hc hc47 _ ?_ []
    ⟨_, true, 47⟩ (by simp [renderTarget, charStream.pending])).trans ?_
  · have := length_le_renderTarget segs
    simp only [List.length_append, List.length_cons]
    omega
  · simp

theorem skipOptionalWhitespaceLoop_of_pending (ws : Bytes) (c : Nat) (rest : Bytes)
    (hws : ∀ x ∈ ws, x = 32 ∨ x = 9) (hc : ¬ (c = 32 ∨ c = 9))
    (fuel : Nat) (hfuel : ws.length + 1 ≤ fuel) (chars : charStream)
    (h : chars.pending = ws ++ c :: rest) :
    skipOptionalWhitespaceLoop fuel chars =
      (Result.ok (), { reader := rest, hasPeek := true, peek := c }) := by
  induction ws generalizing fuel chars with
  | nil =>
    obtain ⟨fuel, rfl⟩ : ∃ n, fuel = n + 1 := ⟨fuel - 1, by simp at hfuel; omega⟩
    rw [skipOptionalWhitespaceLoop]
    rw [Parser.bind_ok _ _ _ _ _ (Peek_of_pending chars c rest h)]
    simp only [hc, if_false]
    rfl
  | cons x ws ih =>
    obtain ⟨fuel, rfl⟩ : ∃ n, fuel = n + 1 := ⟨fuel - 1, by simp at hfuel; omega⟩
    have hx : x = 32 ∨ x = 9 := hws x (List.mem_cons_self _ _)
    rw [skipOptionalWhitespaceLoop]
    rw [Parser.bind_ok _ _ _ _ _ (Peek_of_pending chars x _ h)]
    simp only [hx, if_true]
    rw [Parser.bind_ok _ _ _ _ _ (Next_of_pending ⟨_, true, _⟩ x _ rfl)]
    exact ih (fun y hy => hws y (List.mem_cons_of_mem _ hy)) fuel
      (by simp at hfuel; omega) ⟨ws ++ c :: rest, false, x⟩ rfl

theorem skipOptionalWhitespace_of_pending (ws : Bytes) (c : Nat) (rest : Bytes)
    (hws : ∀ x ∈ ws, x = 32 ∨ x = 9) (hc : ¬ (c = 32 ∨ c = 9)) (chars : charStream)
    (h : chars.pending = ws ++ c :: rest) :
    Parser.ignoreErr skipOptionalWhitespace () chars =
      (Result.ok (), { reader := rest, hasPeek := true, peek := c }) := by
  have hb := budget_ge chars
  rw [h] at hb
  simp only [List.length_append, List.length_cons] at hb
  have : skipOptionalWhitespace chars =
      (Result.ok (), { reader := rest, hasPeek := true, peek := c }) :=
    skipOptionalWhitespaceLoop_of_pending ws c rest hws hc _ (by omega) chars h
  simp only [Parser.ignoreErr, this]

theorem parseFieldValueLoop_of_pending (value : Bytes) (c : Nat) (rest : Bytes)
    (hvalue : ∀ x ∈ value, isFieldVchar x = true)
    (hc : isFieldVchar c = false) (hcw : ¬ (c = 32 ∨ c = 9))
    (fuel : Nat) (hfuel : value.length + 1 ≤ fuel) (acc : Bytes) (chars : charStream)
    (h : chars.pending = value ++ c :: rest) :
    parseFieldValueLoop fuel acc (-1) chars =
      (Result.ok (acc ++ fieldValueOf value), { reader := rest, hasPeek := true, peek := c }) := by
  induction value generalizing fuel acc chars with
  | nil =>
    obtain ⟨fuel, rfl⟩ : ∃ n, fuel = n + 1 := ⟨fuel - 1, by simp at hfuel; omega⟩
    rw [parseFieldValueLoop]
    rw [Parser.bind_ok _ _ _ _ _ (Peek_of_pending chars c rest h)]
    have hc1 : ¬ ((c ≥ 33 ∧ c ≤ 126) ∨ (c ≥ 128 ∧ c ≤ 255)) := by
      simpa [isFieldVchar] using hc
    simp only [hc1, hcw, if_false, ne_eq, not_true_eq_false, fieldValueOf, List.append_nil]
    rfl
  | cons x value ih =>
    obtain ⟨fuel, rfl⟩ : ∃ n, fuel = n + 1 := ⟨fuel - 1, by simp at hfuel; omega⟩
    have hx : isFieldVchar x = true := hvalue x (List.mem_cons_self _ _)
    have hx1 : (x ≥ 33 ∧ x ≤ 126) ∨ (x ≥ 128 ∧ x ≤ 255) := by
      simpa [isFieldVchar] using hx
    rw [parseFieldValueLoop]
    rw [Parser.bind_ok _ _ _ _ _ (Peek_of_pending chars x _ h)]
    simp only [hx1, if_true]
    rw [Parser.bind_ok _ _ _ _ _ (Next_of_pending ⟨_, true, _⟩ x _ rfl)]
    refine (ih (fun y hy => hvalue y (List.mem_cons_of_mem _ hy)) fuel
      (by simp at hfuel; omega) (acc ++ stringOfByte x) ⟨value ++ c :: rest, false, x⟩ rfl).trans ?_
    simp [fieldValueOf]

theorem parseFieldValue_of_pending (value : Bytes) (c : Nat) (rest : Bytes)
    (hvalue : ∀ x ∈ value, isFieldVchar x = true)
    (hc : isFieldVchar c = false) (hcw : ¬ (c = 32 ∨ c = 9)) (chars : charStream)
    (h : chars.pending = value ++ c :: rest) :
    parseFieldValue chars =
      (Result.ok (fieldValueOf value), { reader := rest, hasPeek := true, peek := c }) := by
  have hb := budget_ge chars
  rw [h] at hb
  simp only [List.length_append, List.length_cons] at hb
  show parseFieldValueLoop chars.budget [] (-1) chars = _
  refine (parseFieldValueLoop_of_pending value c rest hvalue hc hcw _ (by omega) [] chars h).trans ?_
  simp

theorem value_stop (value : Bytes) (rest : Bytes)
    (hvalue : ∀ x ∈ value, isFieldVchar x = true) :
    ∃ c1 rest1, value ++ 13 :: rest = c1 :: rest1 ∧ ¬ (c1 = 32 ∨ c1 = 9) := by
  cases value with
  | nil => exact ⟨13, rest, rfl, by decide⟩
  | cons x value =>
    refine ⟨x, _, rfl, ?_⟩
    have hx : isFieldVchar x = true := hvalue x (List.mem_cons_self _ _)
    have hx1 : (x ≥ 33 ∧ x ≤ 126) ∨ (x ≥ 128 ∧ x ≤ 255) := by
      simpa [isFieldVchar] using hx
    omega

theorem parseHeaderField_of_pending (f : FieldLine) (hf : f.wellFormed) (rest : Bytes)
    (chars : charStream) (h : chars.pending = f.name ++ 58 :: f.ows ++ f.value ++ 13 :: rest) :
    parseHeaderField chars =
      (Result.ok { Name := f.name, Value := fieldValueOf f.value },
        { reader := rest, hasPeek := true, peek := 13 }) := by
  obtain ⟨hname, hows, hvalue⟩ := hf
  unfold parseHeaderField
  have h1 : chars.pending = f.name ++ 58 :: (f.ows ++ (f.value ++ 13 :: rest)) := by
    simpa using h
  rw [Parser.bind_ok _ _ _ _ _
    (show parseFieldName chars = _ from
      parseToken_of_pending f.name 58 _ hname (by decide) chars h1)]
  rw [Parser.bind_ok _ _ _ _ _ (Expect_of_pending [] 58 ⟨_, true, 58⟩ _ rfl)]
  obtain ⟨c1, rest1, hr, hc1⟩ := value_stop f.value rest hvalue
  rw [Parser.bind_ok _ _ _ _ _ (skipOptionalWhitespace_of_pending f.ows c1 rest1 hows hc1
    ⟨f.ows ++ (f.value ++ 13 :: rest), false, 58⟩ (by rw [hr]; rfl))]
  rw [Parser.bind_ok _ _ _ _ _ (parseFieldValue_of_pending f.value 13 rest hvalue
    (by decide) (by decide) ⟨rest1, true, c1⟩ (by rw [hr]; rfl))]
  rw [Parser.bind_ok _ _ _ _ _ (skipOptionalWhitespace_of_pending [] 13 rest
    (by simp) (by decide) ⟨rest, true, 13⟩ rfl)]
  rfl

theorem render_first (f : FieldLine) (hf : f.wellFormed) (more : Bytes) :
    ∃ c1 rest1, f.name ++ 58 :: f.ows ++ f.value ++ 13 :: more = c1 :: rest1 ∧ c1 ≠ 13 := by
  cases hn : f.name with
  | nil => exact ⟨58, f.ows ++ f.value ++ 13 :: more, by simp, by decide⟩
  | cons x name =>
    refine ⟨x, name ++ 58 :: f.ows ++ f.value ++ 13 :: more, by simp, ?_⟩
    have hx : isTokenChar x = true := hf.1 x (by rw [hn]; exact List.mem_cons_self _ _)
    have := isTokenChar_lt hx
    intro h13
    subst h13
    revert hx
    decide

theorem Expect_crlf_of_pending (chars : charStream) (rest : Bytes)
    (h : chars.pending = 13 :: 10 :: rest) :
    charStream.Expect (ascii "\r\n") chars =
      (Result.ok (), { reader := rest, hasPeek := false, peek := chars.peek }) :=
  Expect_of_pending [10] 13 chars rest h

theorem length_le_renderFields (fields : List FieldLine) :
    fields.length ≤ (renderFields fields).length := by
  induction fields with
  | nil => simp
  | cons f fields ih =>
    simp only [renderFields, FieldLine.render, List.length_cons, List.length_append]
    omega

theorem parseHttpMessageLoop_of_pending (fields : List FieldLine)
    (hfields : ∀ f ∈ fields, f.wellFormed) (rest : Bytes)
    (fuel : Nat) (hfuel : fields.length + 1 ≤ fuel) (acc : HeaderMap) (chars : charStream)
    (h : chars.pending = renderFields fields ++ 13 :: rest) :
    parseHttpMessageLoop fuel acc chars =
      (Result.ok (addFields acc fields), { reader := rest, hasPeek := true, peek := 13 }) := by
  induction fields generalizing fuel acc chars with
  | nil =>
    obtain ⟨fuel, rfl⟩ : ∃ n, fuel = n + 1 := ⟨fuel - 1, by simp at hfuel; omega⟩
    rw [parseHttpMessageLoop]
    rw [Parser.bind_ok _ _ _ _ _ (Peek_of_pending chars 13 rest (by simpa [renderFields] using h))]
    simp only [if_true, addFields]
    rfl
  | cons f fields ih =>
    obtain ⟨fuel, rfl⟩ : ∃ n, fuel = n + 1 := ⟨fuel - 1, by simp at hfuel; omega⟩
    have hf : f.wellFormed := hfields f (List.mem_cons_self _ _)
    have h1 : chars.pending =
        f.name ++ 58 :: f.ows ++ f.value ++ 13 :: (10 :: (renderFields fields ++ 13 :: rest)) := by
      simpa [renderFields, FieldLine.render] using h
    obtain ⟨c1, rest1, hr, hc1⟩ := render_first f hf (10 :: (renderFields fields ++ 13 :: rest))
    rw [parseHttpMessageLoop]
    rw [Parser.bind_ok _ _ _ _ _ (Peek_of_pending chars c1 rest1 (by rw [h1, hr]))]
    simp only [hc1, if_false]
    rw [Parser.bind_ok _ _ _ _ _ (parseHeaderField_of_pending f hf
      (10 :: (renderFields fields ++ 13 :: rest)) ⟨rest1, true, c1⟩ (by rw [hr]; rfl))]
    rw [Parser.bind_ok _ _ _ _ _ (Expect_crlf_of_pending ⟨_, true, 13⟩ _ rfl)]
    exact ih (fun g hg => hfields g (List.mem_cons_of_mem _ hg)) fuel
      (by simp at hfuel; omega) (addField acc f) ⟨renderFields fields ++ 13 :: rest, false, 13⟩ rfl

theorem parseRequestLine_of_pending (method : Bytes) (segments : List Bytes) (a b : Nat)
    (hmethod : ∀ x ∈ method, isTokenChar x = true)
    (hsegments : ∀ s ∈ segments, ∀ x ∈ s, isSegmentChar x = true) (hne : segments ≠ [])
    (ha : a ≤ 9) (hb : b ≤ 9) (rest : Bytes) (chars : charStream)
    (h : chars.pending = method ++ 32 :: renderTarget segments ++ 32 :: ascii "HTTP/" ++
      (48 + a) :: 46 :: (48 + b) :: 13 :: 10 :: rest) :
    parseRequestLine chars =
      (Result.ok { Method := method, Target := segments, Version := 16 * a + b },
        { reader := rest, hasPeek := false, peek := 32 }) := by
  obtain ⟨seg, segs, rfl⟩ : ∃ seg segs, segments = seg :: segs := by
    cases segments with
    | nil => exact absurd rfl hne
    | cons seg segs => exact ⟨seg, segs, rfl⟩
  unfold parseRequestLine
  have h1 : chars.pending = method ++ 32 :: (renderTarget (seg :: segs) ++ 32 :: (ascii "HTTP/" ++
      (48 + a) :: 46 :: (48 + b) :: 13 :: 10 :: rest)) := by
    simpa using h
  rw [Parser.bind_ok _ _ _ _ _
    (show parseMethod chars = _ from
      parseToken_of_pending method 32 _ hmethod (by decide) chars h1)]
  rw [Parser.bind_ok _ _ _ _ _ (Expect_of_pending [] 32 ⟨_, true, 32⟩ _ rfl)]
  rw [Parser.bind_ok _ _ _ _ _ (parseRequestTarget_of_pending seg segs 32 _ hsegments
    (by decide) (by decide) ⟨_, false, 32⟩ rfl)]
  rw [Parser.bind_ok _ _ _ _ _ (Expect_of_pending [] 32 ⟨_, true, 32⟩ _ rfl)]
  have hv : Parser.ignoreErr parseHttpVersion 0
      ⟨ascii "HTTP/" ++ (48 + a) :: 46 :: (48 + b) :: 13 :: 10 :: rest, false, 32⟩ =
      (Result.ok (16 * a + b), ⟨13 :: 10 :: rest, false, 32⟩) := by
    simp only [Parser.ignoreErr, parseHttpVersion_of_pending a b ha hb
      ⟨ascii "HTTP/" ++ (48 + a) :: 46 :: (48 + b) :: 13 :: 10 :: rest, false, 32⟩ _ rfl]
  rw [Parser.bind_ok _ _ _ _ _ hv]
  rw [Parser.bind_ok _ _ _ _ _ (Expect_crlf_of_pending ⟨_, false, 32⟩ rest rfl)]
  rfl

theorem parseHttpMessage_of_pending (method : Bytes) (segments : List Bytes) (a b : Nat)
    (fields : List FieldLine)
    (hmethod : ∀ x ∈ method, isTokenChar x = true)
    (hsegments : ∀ s ∈ segments, ∀ x ∈ s, isSegmentChar x = true) (hne : segments ≠ [])
    (ha : a ≤ 9) (hb : b ≤ 9) (hfields : ∀ f ∈ fields, f.wellFormed)
    (rest : Bytes) (chars : charStream)
    (h : chars.pending = renderHead method segments a b fields ++ rest) :
    parseHttpMessage chars =
      (Result.ok { RequestLine := { Method := method, Target := segments, Version := 16 * a + b },
                   Headers := addFields [] fields, RequestBody := [] },
        { reader := rest, hasPeek := false, peek := 13 }) := by
  unfold parseHttpMessage
  have h1 : chars.pending = method ++ 32 :: renderTarget segments ++ 32 :: ascii "HTTP/" ++
      (48 + a) :: 46 :: (48 + b) :: 13 :: 10 :: (renderFields fields ++ 13 :: 10 :: rest) := by
    simpa [renderHead] using h
  rw [Parser.bind_ok _ _ _ _ _ (parseRequestLine_of_pending method segments a b hmethod
    hsegments hne ha hb _ chars h1)]
  have hl : Parser.withBudget (fun fuel => parseHttpMessageLoop fuel [])
      ⟨renderFields fields ++ 13 :: 10 :: rest, false, 32⟩ =
      (Result.ok (addFields [] fields), ⟨10 :: rest, true, 13⟩) := by
    show parseHttpMessageLoop (renderFields fields ++ 13 :: 10 :: rest).length.succ.succ [] _ = _
    refine parseHttpMessageLoop_of_pending fields hfields (10 :: rest) _ ?_ [] _ rfl
    have := length_le_renderFields fields
    simp only [List.length_append, List.length_cons]
    omega
  rw [Parser.bind_ok _ _ _ _ _ hl]
  rw [Parser.bind_ok _ _ _ _ _ (Expect_crlf_of_pending ⟨_, true, 13⟩ rest rfl)]
  rfl

theorem formatLoop_small (fuel n : Nat) (acc : Bytes) (hn : n < 10) :
    formatLoop (fuel + 1) n acc = (48 + n) :: acc := by
  simp [formatLoop, hn]

theorem formatLoop_large (fuel n : Nat) (acc : Bytes) (hn : 10 ≤ n) :
    formatLoop (fuel + 1) n acc = formatLoop fuel (n / 10) ((48 + n % 10) :: acc) := by
  have : ¬ n < 10 := by omega
  simp [formatLoop, this]

theorem FormatInt_three_digits (n : Nat) (h1 : 100 ≤ n) (h2 : n ≤ 999) :
    FormatInt n = [48 + n / 100, 48 + n / 10 % 10, 48 + n % 10] := by
  unfold FormatInt
  obtain ⟨m, rfl⟩ : ∃ m, n = m + 2 := ⟨n - 2, by omega⟩
  rw [formatLoop_large _ _ _ (by omega), formatLoop_large _ _ _ (by omega),
    formatLoop_small _ _ _ (by omega)]
  have : (m + 2) / 10 / 10 = (m + 2) / 100 := by omega
  rw [this]

theorem parseStatusCode_of_pending (d1 d2 d3 : Nat) (h1 : d1 ≤ 9) (h2 : d2 ≤ 9) (h3 : d3 ≤ 9)
    (chars : charStream) (rest : Bytes)
    (h : chars.pending = (48 + d1) :: (48 + d2) :: (48 + d3) :: rest) :
    parseStatusCode chars =
      (Result.ok (100 * d1 + 10 * d2 + d3),
        { reader := rest, hasPeek := false, peek := chars.peek }) := by
  unfold parseStatusCode
  rw [Parser.bind_ok _ _ _ _ _ (parseDigit_of_pending d1 h1 chars _ h)]
  rw [Parser.bind_ok _ _ _ _ _ (parseDigit_of_pending d2 h2 ⟨_, false, _⟩ _ rfl)]
  rw [Parser.bind_ok _ _ _ _ _ (parseDigit_of_pending d3 h3 ⟨_, false, _⟩ _ rfl)]
  have : (100 * d1 + 10 * d2 + d3) % 65536 = 100 * d1 + 10 * d2 + d3 := by omega
  rw [this]
  rfl

theorem Expect_one (e : Nat) (rest : Bytes) (pk : Nat) :
    charStream.Expect [e] { reader := e :: rest, hasPeek := false, peek := pk } =
      (Result.ok (), { reader := rest, hasPeek := false, peek := pk }) :=
  Expect_of_pending [] e ⟨e :: rest, false, pk⟩ rest rfl

theorem reasonPhrases_no_CR (status : Nat) : ∀ x ∈ reasonPhrases status, x ≠ 13 := by
  unfold reasonPhrases
  split <;> decide

theorem parseStatusLineLoop_of_pending (s : Bytes) (c : Nat) (rest : Bytes)
    (hs : ∀ x ∈ s, x ≠ 13) (hc : c ≠ 13)
    (fuel : Nat) (hfuel : s.length + 2 ≤ fuel) (chars : charStream)
    (h : chars.pending = s ++ 13 :: c :: rest) :
    parseStatusLineLoop fuel chars =
      (Result.ok (), { reader := rest, hasPeek := false, peek := chars.peek }) := by
  induction s generalizing fuel chars with
  | nil =>
    obtain ⟨fuel, rfl⟩ : ∃ n, fuel = n + 2 := ⟨fuel - 2, by simp at hfuel; omega⟩
    rw [parseStatusLineLoop]
    rw [Parser.bind_ok _ _ _ _ _ (Next_of_pending chars 13 _ h)]
    simp only [if_true]
    rw [parseStatusLineInner]
    rw [Parser.bind_ok _ _ _ _ _ (Next_of_pending ⟨_, false, _⟩ c rest rfl)]
    simp only [ne_eq, hc, not_false_eq_true, or_true, if_true]
    rfl
  | cons x s ih =>
    obtain ⟨fuel, rfl⟩ : ∃ n, fuel = n + 1 := ⟨fuel - 1, by simp at hfuel; omega⟩
    have hx : x ≠ 13 := hs x (List.mem_cons_self _ _)
    rw [parseStatusLineLoop]
    rw [Parser.bind_ok _ _ _ _ _ (Next_of_pending chars x _ h)]
    simp only [hx, if_false]
    exact ih (fun y hy => hs y (List.mem_cons_of_mem _ hy)) fuel
      (by simp at hfuel; omega) ⟨s ++ 13 :: c :: rest, false, chars.peek⟩ rfl

/-- Claim C9: for every response `r` whose status is a three-digit code,
whatever its headers and body, `parseStatusLine` on a fresh cursor over the
bytes of `unparse r` succeeds and returns the version 0x11 (17) and the status
`r.Status`; it leaves the cursor at the first byte after the status line. -/
theorem parseStatusLine_unparse (r : HttpResponse) (h1 : 100 ≤ r.Status) (h2 : r.Status ≤ 999) :
    parseStatusLine (newCharStream (unparse r)) =
      (Result.ok (17, r.Status),
        { reader := unparseHeaders r.Headers ++ ascii "\r\n" ++ r.ResponseBody,
          hasPeek := false, peek := 0 }) := by
  have hu : (newCharStream (unparse r)).pending =
      ascii "HTTP/" ++ (48 + 1) :: 46 :: (48 + 1) :: 32 ::
        (48 + r.Status / 100) :: (48 + r.Status / 10 % 10) :: (48 + r.Status % 10) :: 32 ::
        ((reasonPhrases r.Status ++ [32]) ++ 13 :: 10 ::
          (unparseHeaders r.Headers ++ ascii "\r\n" ++ r.ResponseBody)) := by
    simp only [newCharStream, charStream.pending, unparse, FormatInt_three_digits _ h1 h2]
    simp [ascii]
  unfold parseStatusLine
  rw [Parser.bind_ok _ _ _ _ _ (parseHttpVersion_of_pending 1 1 (by omega) (by omega) _ _ hu)]
  rw [Parser.bind_ok _ _ _ _ _ (Expect_one 32 _ _)]
  rw [Parser.bind_ok _ _ _ _ _ (parseStatusCode_of_pending (r.Status / 100) (r.Status / 10 % 10)
    (r.Status % 10) (by omega) (by omega) (by omega) ⟨_, false, _⟩ _ rfl)]
  rw [Parser.bind_ok _ _ _ _ _ (Expect_one 32 _ _)]
  have hl : Parser.withBudget parseStatusLineLoop
      ⟨(reasonPhrases r.Status ++ [32]) ++ 13 :: 10 ::
          (unparseHeaders r.Headers ++ ascii "\r\n" ++ r.ResponseBody), false,
        (newCharStream (unparse r)).peek⟩ =
      (Result.ok (), ⟨unparseHeaders r.Headers ++ ascii "\r\n" ++ r.ResponseBody, false,
        (newCharStream (unparse r)).peek⟩) := by
    refine parseStatusLineLoop_of_pending (reasonPhrases r.Status ++ [32]) 10 _ ?_ (by decide)
      _ ?_ ⟨_, false, _⟩ rfl
    · intro x hx
      rcases List.mem_append.1 hx with hx | hx
      · exact reasonPhrases_no_CR _ x hx
      · simp only [List.mem_singleton] at hx
        omega
    · simp only [charStream.budget, List.length_append, List.length_cons]
      omega
  rw [Parser.bind_ok _ _ _ _ _ hl]
  have : 100 * (r.Status / 100) + 10 * (r.Status / 10 % 10) + r.Status % 10 = r.Status := by
    omega
  rw [this]
  rfl

theorem parseUintLoop_formatLoop (fuel n : Nat) (acc : Bytes) (hn : n < fuel) :
    parseUintLoop (formatLoop fuel n acc) 0 = parseUintLoop acc n := by
  induction fuel generalizing n acc with
  | zero => omega
  | succ fuel ih =>
    by_cases h10 : n < 10
    · rw [formatLoop_small _ _ _ h10]
      have h1 : 48 ≤ 48 + n ∧ 48 + n ≤ 57 := by omega
      have h2 : 0 * 10 + (48 + n - 48) = n := by omega
      simp only [parseUintLoop, h1, and_self, if_true, h2]
    · rw [formatLoop_large _ _ _ (by omega)]
      rw [ih (n / 10) _ (by omega)]
      have h1 : 48 ≤ 48 + n % 10 ∧ 48 + n % 10 ≤ 57 := by omega
      have h2 : n / 10 * 10 + (48 + n % 10 - 48) = n := by omega
      simp only [parseUintLoop, h1, and_self, if_true, h2]

theorem formatLoop_head (fuel n : Nat) (acc : Bytes) (hn : n < fuel) :
    ∃ c rest, formatLoop fuel n acc = c :: rest ∧ 48 ≤ c ∧ c ≤ 57 := by
  induction fuel generalizing n acc with
  | zero => omega
  | succ fuel ih =>
    by_cases h10 : n < 10
    · rw [formatLoop_small _ _ _ h10]
      exact ⟨48 + n, acc, rfl, by omega, by omega⟩
    · rw [formatLoop_large _ _ _ (by omega)]
      exact ih (n / 10) _ (by omega)

theorem ParseInt_FormatInt (n : Nat) :
    ParseInt (FormatInt n) = if n < 2 ^ 63 then some (n : Int) else none := by
  obtain ⟨c, rest, hf, hc1, hc2⟩ := formatLoop_head (n + 1) n [] (by omega)
  have hp := parseUintLoop_formatLoop (n + 1) n [] (by omega)
  unfold FormatInt
  rw [hf] at hp ⊢
  have h43 : ¬ (c = 43) := by omega
  have h45 : ¬ (c = 45) := by omega
  have hp1 : parseUintLoop (c :: rest) 0 = some n := by rw [hp]; rfl
  simp only [ParseInt, h43, h45, hp1, false_or, if_false, decide_False, Bool.not_false,
    Bool.true_and, Bool.false_and, decide_eq_true_eq, Bool.false_eq_true, reduceCtorEq]
  split_ifs <;> first | rfl | omega

theorem callsFrom_request (q : HttpRequest) (i k : Nat) : ∀ e ∈ callsFrom q i k, e.2 = q := by
  induction k generalizing i with
  | zero => simp [callsFrom]
  | succ k ih =>
    intro e he
    simp only [callsFrom, List.mem_cons] at he
    rcases he with rfl | he
    · rfl
    · exact ih (i + 1) e he

theorem rangeHandlersGet_observed_log {σ : Type} (hs : List (Handler σ)) (q : HttpRequest)
    (w : σ) (i : Nat) (log : CallLog) :
    ∃ k, (hs ≠ [] → 1 ≤ k) ∧
      (rangeHandlersGet (observedFrom i hs) q (w, log)).2.2 = log ++ callsFrom q i k := by
  induction hs generalizing w i log with
  | nil => exact ⟨0, fun h => absurd rfl h, by simp [observedFrom, rangeHandlersGet, callsFrom]⟩
  | cons a hs ih =>
    rcases ha : a q w with ⟨⟨claimed, resp⟩, wa⟩
    cases claimed
    · obtain ⟨k, _, hk⟩ := ih wa (i + 1) (log ++ [(i, q)])
      refine ⟨k + 1, fun _ => by omega, ?_⟩
      simp only [observedFrom, rangeHandlersGet, observed, ha]
      rw [hk]
      simp [callsFrom]
    · refine ⟨1, fun _ => le_refl _, ?_⟩
      simp [observedFrom, rangeHandlersGet, observed, ha, callsFrom]

/-- Claim C3: let a request line have a method made of token characters, an
origin-form target and the version `HTTP/a.b` with decimal digits `a ≠ 1` and
`b`. Whatever follows it, `parseRequestLine` returns the version `16 * a + b`;
when well-formed header lines and the blank line follow, `parseHttpMessage`
returns a request with that version, and `handleRequest` answers this request,
as it answers every request with that version whatever its headers and method,
with `HttpVersionNotSupported`, of status 505, returning the cursor and the
application state untouched: no byte is read and no handler is invoked. -/
theorem version_other_than_1 {σ : Type} (method : Bytes) (segments : List Bytes) (a b : Nat)
    (fields : List FieldLine) (rest : Bytes) (chars : charStream) (server : Server σ) (w : σ)
    (hmethod : ∀ x ∈ method, isTokenChar x = true)
    (hsegments : ∀ s ∈ segments, ∀ x ∈ s, isSegmentChar x = true) (hne : segments ≠ [])
    (ha : a ≤ 9) (hb : b ≤ 9) (ha1 : a ≠ 1) (hfields : ∀ f ∈ fields, f.wellFormed)
    (h : chars.pending = renderHead method segments a b fields ++ rest) :
    (∀ (chars0 : charStream) (rest0 : Bytes),
      chars0.pending = method ++ 32 :: renderTarget segments ++ 32 :: ascii "HTTP/" ++
        (48 + a) :: 46 :: (48 + b) :: 13 :: 10 :: rest0 →
      parseRequestLine chars0 =
        (Result.ok { Method := method, Target := segments, Version := 16 * a + b },
          { reader := rest0, hasPeek := false, peek := 32 })) ∧
    (∃ request chars1,
      parseHttpMessage chars = (Result.ok request, chars1) ∧
      request.RequestLine.Version = 16 * a + b ∧
      server.handleRequest request chars1 w = (Result.ok HttpVersionNotSupported, chars1, w)) ∧
    (∀ (q : HttpRequest) (cs : charStream), q.RequestLine.Version = 16 * a + b →
      server.handleRequest q cs w = (Result.ok HttpVersionNotSupported, cs, w)) ∧
    HttpVersionNotSupported.Status = 505 := by
  refine ⟨?_, ?_, ?_, rfl⟩
  · intro chars0 rest0 h0
    exact parseRequestLine_of_pending method segments a b hmethod hsegments hne ha hb rest0 chars0 h0
  · refine ⟨_, _, parseHttpMessage_of_pending method segments a b fields hmethod hsegments hne
      ha hb hfields rest chars h, rfl, ?_⟩
    exact handleRequest_version server _ _ w a b ha hb ha1 rfl
  · intro q cs hq
    exact handleRequest_version server q cs w a b ha hb ha1 hq

theorem version_other_than_1_witness :
    (newCharStream (ascii "PUT /a/b HTTP/2.0\r\nHost: x\r\n\r\nrest")).pending =
      renderHead (ascii "PUT") [ascii "a", ascii "b"] 2 0
        [{ name := ascii "Host", ows := [32], value := ascii "x" }] ++ ascii "rest" ∧
    ∃ request chars1,
      parseHttpMessage (newCharStream (ascii "PUT /a/b HTTP/2.0\r\nHost: x\r\n\r\nrest")) =
        (Result.ok request, chars1) ∧
      request.RequestLine.Version = 16 * 2 + 0 ∧
      Server.handleRequest (σ := Unit) { handlers := [fun _ w => ((true, Ok []), w)] }
        request chars1 () = (Result.ok HttpVersionNotSupported, chars1, ()) :=
  ⟨by decide,
    (version_other_than_1 (σ := Unit) (ascii "PUT") [ascii "a", ascii "b"] 2 0
      [{ name := ascii "Host", ows := [32], value := ascii "x" }] (ascii "rest")
      (newCharStream (ascii "PUT /a/b HTTP/2.0\r\nHost: x\r\n\r\nrest"))
      { handlers := [fun _ w => ((true, Ok []), w)] } ()
      (by decide) (by decide) (by decide) (by decide) (by decide) (by decide)
      (by
        intro f hf
        simp only [List.mem_singleton] at hf
        subst hf
        exact ⟨by decide, by decide, by decide⟩)
      (by decide)).2.1⟩

theorem parseStatusLine_unparse_witness :
    100 ≤ (200 : Nat) ∧ (200 : Nat) ≤ 999 ∧
    parseStatusLine (newCharStream (unparse
        { Status := 200, Headers := [(ascii "Server", [ascii "schrv"])],
          ResponseBody := ascii "a\rb" })) =
      (Result.ok (17, 200),
        { reader := ascii "Server:schrv\r\n\r\na\rb", hasPeek := false, peek := 0 }) :=
  ⟨by decide, by decide,
    parseStatusLine_unparse
      { Status := 200, Headers := [(ascii "Server", [ascii "schrv"])],
        ResponseBody := ascii "a\rb" } (by decide) (by decide)⟩

/-! ## The body of a request -/

theorem ReadLoop_full (fuel : Nat) (buf : List Nat) (chars : charStream) :
    charStream.ReadLoop fuel buf buf.length chars = (Result.diverge, chars) := by
  induction fuel with
  | zero => rfl
  | succ fuel ih =>
    rw [charStream.ReadLoop]
    simp only [Nat.sub_self, readerRead, List.length_nil, Nat.add_zero, List.take_length,
      List.append_nil, List.drop_length]
    exact ih

theorem ReadLoop_exact (fuel : Nat) (b : Bytes) (pk : Nat) :
    charStream.ReadLoop (fuel + 1) (List.replicate b.length 0) 0
        { reader := b, hasPeek := false, peek := pk } =
      (Result.diverge, { reader := [], hasPeek := false, peek := pk }) := by
  cases b with
  | nil => exact ReadLoop_full (fuel + 1) [] _
  | cons x xs =>
    rw [charStream.ReadLoop]
    have h1 : readerRead (x :: xs) ((List.replicate (x :: xs).length 0).length - 0) =
        (x :: xs, none, []) := by
      simp [readerRead]
    simp only [h1]
    have h2 : List.take 0 (List.replicate (x :: xs).length 0) ++ (x :: xs) ++
        List.drop (0 + (x :: xs).length) (List.replicate (x :: xs).length 0) = x :: xs := by
      simp
    rw [h2]
    have h3 : 0 + (x :: xs).length = (x :: xs).length := by omega
    rw [h3]
    exact ReadLoop_full fuel (x :: xs) _

theorem Read_exact_never_returns (b : Bytes) (pk : Nat) (hb : b.length ≤ maxAlloc) :
    charStream.Read b.length { reader := b, hasPeek := false, peek := pk } =
      (Result.diverge, { reader := [], hasPeek := false, peek := pk }) := by
  have hnot : ¬ (b.length > maxAlloc) := by omega
  simp only [charStream.Read, hnot, if_false, Parser.withBudget, charStream.budget,
    Bool.false_and, Bool.false_eq_true]
  exact ReadLoop_exact (b.length + 1) b pk

theorem handleRequest_body_diverges {σ : Type} (server : Server σ) (request : HttpRequest)
    (b : Bytes) (pk : Nat) (w : σ)
    (hversion : request.RequestLine.Version >>> 4 = 1)
    (hhost : (mapGet request.Headers (ascii "Host")).length = 1)
    (hlength : mapGet request.Headers (ascii "Content-Length") = [FormatInt b.length])
    (hb : b.length ≤ maxAlloc) :
    server.handleRequest request { reader := b, hasPeek := false, peek := pk } w =
      (Result.diverge, { reader := [], hasPeek := false, peek := pk }, w) := by
  have hN : b.length < 2 ^ 63 := by
    have : maxAlloc < 2 ^ 63 := by decide
    omega
  have hp : ParseInt (FormatInt b.length) = some (b.length : Int) := by
    rw [ParseInt_FormatInt, if_pos hN]
  unfold Server.handleRequest
  simp [hversion, hhost, hlength, hp, Read_exact_never_returns b pk hb]

/-- Claim C4 (the code fails the claim): the loop of `charStream.Read` can only
be left on `io.EOF`, and once the buffer is full it hands the reader an empty
slice, for which the connection returns `0, nil`; so when the stream holds
exactly the `N` bytes that `Content-Length` announces, `handleRequest` never
returns and no handler is called. On the head
`GET /f HTTP/1.1`, `Host: a`, `Content-Length: 5` followed by `hello` and the
end of the stream, `parseHttpMessage` returns the request and leaves the cursor
at `hello`, and `handleRequest` reads the five bytes and then loops, its
handler, which would claim, never being called; the same happens with
`Content-Length: 0`. The loop on a full buffer does not return whatever the
number of turns it is given, and so for every head of this shape and every
body of a length `make` can allocate. -/
theorem handleRequest_body_never_returns :
    parseHttpMessage (newCharStream
        (ascii "GET /f HTTP/1.1\r\nHost: a\r\nContent-Length: 5\r\n\r\nhello")) =
      (Result.ok
        { RequestLine := { Method := ascii "GET", Target := [ascii "f"], Version := 17 },
          Headers := [(ascii "Host", [ascii "a"]), (ascii "Content-Length", [ascii "5"])],
          RequestBody := [] },
        { reader := ascii "hello", hasPeek := false, peek := 13 }) ∧
    Server.handleRequest (σ := Unit × CallLog)
        { handlers := observedFrom 0 [fun q w => ((true, Ok q.RequestBody), w)] }
        { RequestLine := { Method := ascii "GET", Target := [ascii "f"], Version := 17 },
          Headers := [(ascii "Host", [ascii "a"]), (ascii "Content-Length", [ascii "5"])],
          RequestBody := [] }
        { reader := ascii "hello", hasPeek := false, peek := 13 } ((), []) =
      (Result.diverge, { reader := [], hasPeek := false, peek := 13 }, ((), [])) ∧
    (Server.handleConnection (σ := Unit)
        { handlers := [fun q w => ((true, Ok q.RequestBody), w)] }
        (ascii "GET /f HTTP/1.1\r\nHost: a\r\nContent-Length: 0\r\n\r\n") ()).1 =
      Result.diverge ∧
    (∀ (fuel : Nat) (buf : List Nat) (chars : charStream),
      charStream.ReadLoop fuel buf buf.length chars = (Result.diverge, chars)) ∧
    (∀ (fuel : Nat) (b : Bytes) (pk : Nat),
      (charStream.ReadLoop fuel (List.replicate b.length 0) 0
        { reader := b, hasPeek := false, peek := pk }).1 = Result.diverge) ∧
    (∀ (σ : Type) (method : Bytes) (segments : List Bytes) (x : Nat) (fields : List FieldLine)
      (b : Bytes) (hs : List (Handler σ)) (w : σ),
      (∀ c ∈ method, isTokenChar c = true) →
      (∀ s ∈ segments, ∀ c ∈ s, isSegmentChar c = true) → segments ≠ [] → x ≤ 9 →
      (∀ f ∈ fields, f.wellFormed) →
      (mapGet (addFields [] fields) (ascii "Host")).length = 1 →
      mapGet (addFields [] fields) (ascii "Content-Length") = [FormatInt b.length] →
      b.length ≤ maxAlloc →
      ∃ request,
        parseHttpMessage (newCharStream (renderHead method segments 1 x fields ++ b)) =
          (Result.ok request, { reader := b, hasPeek := false, peek := 13 }) ∧
        Server.handleRequest { handlers := hs } request
            { reader := b, hasPeek := false, peek := 13 } w =
          (Result.diverge, { reader := [], hasPeek := false, peek := 13 }, w)) := by
  refine ⟨by decide!, by decide!, by decide!, ReadLoop_full, ?_, ?_⟩
  · intro fuel b pk
    cases fuel with
    | zero => rfl
    | succ fuel => rw [ReadLoop_exact fuel b pk]
  · intro σ method segments x fields b hs w hmethod hsegments hne hx hfields hhost hlength hb
    refine ⟨_, parseHttpMessage_of_pending method segments 1 x fields hmethod hsegments hne
      (by omega) hx hfields b (newCharStream (renderHead method segments 1 x fields ++ b)) rfl, ?_⟩
    refine handleRequest_body_diverges _ _ b 13 w ?_ hhost hlength hb
    show (16 * 1 + x) >>> 4 = 1
    rw [Nat.shiftRight_eq_div_pow]
    omega

/-! ## Unsupported features -/

/-- Claim C11 (the code fails the claim): on a target that starts with a
letter, or with `*`, `parseRequestTarget` does not return an error but panics,
and so does `parseHttpMessage` on a request with such a target, for instance
`OPTIONS * HTTP/1.1`. This holds for every cursor whose next byte is an ASCII
letter or `*`. -/
theorem parseRequestTarget_panics :
    (parseRequestTarget (newCharStream (ascii "http://a/ "))).1 =
      Result.panic "Absolute and authority form are unsupported." ∧
    (parseRequestTarget (newCharStream (ascii "* "))).1 =
      Result.panic "Asterisk form is unsupported." ∧
    (parseHttpMessage (newCharStream (ascii "OPTIONS * HTTP/1.1\r\nHost: a\r\n\r\n"))).1 =
      Result.panic "Asterisk form is unsupported." ∧
    (∀ (chars : charStream) (c : Nat) (rest : Bytes), chars.pending = c :: rest →
      ((97 ≤ c ∧ c ≤ 122) ∨ (65 ≤ c ∧ c ≤ 90) ∨ c = 42) →
      ∃ msg, parseRequestTarget chars =
        (Result.panic msg, { reader := rest, hasPeek := true, peek := c })) := by
  refine ⟨by decide!, by decide!, by decide!, ?_⟩
  intro chars c rest h hc
  unfold parseRequestTarget
  rw [Parser.bind_ok _ _ _ _ _ (Peek_of_pending chars c rest h)]
  have h47 : c ≠ 47 := by omega
  simp only [h47, if_false]
  by_cases hl : (c ≥ 97 ∧ c ≤ 122) ∨ (c ≥ 65 ∧ c ≤ 90)
  · exact ⟨_, by simp only [hl, if_true]; rfl⟩
  · have h42 : c = 42 := by omega
    exact ⟨_, by simp only [hl, if_false, h42, if_true]; rfl⟩

theorem handleRequest_of_passesEarlyChecks {σ : Type} (server : Server σ)
    (request request1 : HttpRequest) (chars chars1 : charStream) (w : σ)
    (h : passesEarlyChecks request chars request1 chars1) :
    server.handleRequest request chars w = server.handleRequestDispatch request1 chars1 w := by
  obtain ⟨hv, hh, hb⟩ := h
  unfold Server.handleRequest
  rcases hb with ⟨hc, rfl, rfl⟩ | ⟨value, n, body, hc, hp, hr, rfl⟩
  · simp [hv, hh, hc]
  · simp [hv, hh, hc, hp, hr]

theorem passesEarlyChecks_headers {request request1 : HttpRequest} {chars chars1 : charStream}
    (h : passesEarlyChecks request chars request1 chars1) :
    request1.Headers = request.Headers := by
  obtain ⟨_, _, hb⟩ := h
  rcases hb with ⟨_, rfl, _⟩ | ⟨value, n, body, _, _, _, rfl⟩ <;> rfl

/-- Claim C12: let a request pass the version, Host and Content-Length checks,
`chars1` being the cursor once its body is read, and let its first `Expect`
value be other than `100-continue`. Then, whatever the method and the
registered handlers, `handleRequest` returns `ExpectationFailed`, of status
417, and the application state is the one it was given: no handler is
invoked. -/
theorem handleRequest_expectation_failed {σ : Type} (server : Server σ)
    (request request1 : HttpRequest) (chars chars1 : charStream) (w : σ)
    (expectation : Bytes) (others : List Bytes)
    (hpass : passesEarlyChecks request chars request1 chars1)
    (hexpect : mapGet request.Headers (ascii "Expect") = expectation :: others)
    (hother : expectation ≠ ascii "100-continue") :
    server.handleRequest request chars w = (Result.ok ExpectationFailed, chars1, w) ∧
      ExpectationFailed.Status = 417 := by
  refine ⟨?_, rfl⟩
  rw [handleRequest_of_passesEarlyChecks server _ request1 chars chars1 w hpass]
  unfold Server.handleRequestDispatch
  rw [passesEarlyChecks_headers hpass, hexpect]
  simp only [hother, if_false]

theorem handleRequest_expectation_failed_witness :
    passesEarlyChecks
      { RequestLine := { Method := ascii "POST", Target := [ascii "x"], Version := 17 },
        Headers := [(ascii "Host", [ascii "a"]),
          (ascii "Expect", [ascii "bogus", ascii "100-continue"])],
        RequestBody := [] } (newCharStream (ascii "rest"))
      { RequestLine := { Method := ascii "POST", Target := [ascii "x"], Version := 17 },
        Headers := [(ascii "Host", [ascii "a"]),
          (ascii "Expect", [ascii "bogus", ascii "100-continue"])],
        RequestBody := [] } (newCharStream (ascii "rest")) ∧
    Server.handleRequest (σ := Unit) { handlers := [fun _ w => ((true, Ok []), w)] }
      { RequestLine := { Method := ascii "POST", Target := [ascii "x"], Version := 17 },
        Headers := [(ascii "Host", [ascii "a"]),
          (ascii "Expect", [ascii "bogus", ascii "100-continue"])],
        RequestBody := [] } (newCharStream (ascii "rest")) () =
      (Result.ok ExpectationFailed, newCharStream (ascii "rest"), ()) :=
  ⟨⟨by decide, by decide, Or.inl ⟨by decide, rfl, rfl⟩⟩,
    (handleRequest_expectation_failed (σ := Unit) { handlers := [fun _ w => ((true, Ok []), w)] }
      _ _ (newCharStream (ascii "rest")) (newCharStream (ascii "rest")) ()
      (ascii "bogus") [ascii "100-continue"]
      ⟨by decide, by decide, Or.inl ⟨by decide, rfl, rfl⟩⟩ (by decide) (by decide)).1⟩

/-- Claim C13 (the code fails the claim): on a request that passes the version,
Host and Content-Length checks and whose first `Expect` value is
`100-continue`, `handleRequest` returns neither a response nor an error: it
panics with "Continuation is unimplemented". -/
theorem handleRequest_continue_panics :
    Server.handleRequest (σ := Unit) { handlers := [] }
      { RequestLine := { Method := ascii "GET", Target := [ascii "x"], Version := 17 },
        Headers := [(ascii "Host", [ascii "a"]), (ascii "Expect", [ascii "100-continue"])],
        RequestBody := [] } (newCharStream []) () =
      (Result.panic "Continuation is unimplemented", newCharStream [], ()) ∧
    (∀ (σ : Type) (server : Server σ) (request request1 : HttpRequest)
      (chars chars1 : charStream) (w : σ) (others : List Bytes),
      passesEarlyChecks request chars request1 chars1 →
      mapGet request.Headers (ascii "Expect") = ascii "100-continue" :: others →
      server.handleRequest request chars w =
        (Result.panic "Continuation is unimplemented", chars1, w)) := by
  refine ⟨by decide!, ?_⟩
  intro σ server request request1 chars chars1 w others hpass hexpect
  rw [handleRequest_of_passesEarlyChecks server _ request1 chars chars1 w hpass]
  unfold Server.handleRequestDispatch
  rw [passesEarlyChecks_headers hpass, hexpect]
  simp only [if_true]

/-! ## The cursor: `Rest` and `Read` -/

theorem RestLoop_hasPeek (fuel : Nat) (buffer : List Nat) (pos : Nat) (chars : charStream) :
    (charStream.RestLoop fuel buffer pos chars).2.hasPeek = chars.hasPeek := by
  induction fuel generalizing buffer pos chars with
  | zero => rfl
  | succ fuel ih =>
    rw [charStream.RestLoop]
    rcases hr : readerRead chars.reader (buffer.length - pos) with ⟨got, err, rd⟩
    simp only [hr]
    cases err with
    | none =>
      simp only
      split
      · rw [ih]
      · rw [ih]
    | some e =>
      cases e <;> rfl

/-- Claim C14 (the code fails the claim): `Rest` copies the cached byte into
its result and leaves `hasPeek` set. On the stream `ab`, a `Peek` followed by
`Rest` returns `ab`, as `Rest` alone does, but the cache still holds `a`, and
the next `Next` returns `a` again where, without the `Peek`, it reports the end
of the stream. For every cursor, `Rest` returns `hasPeek` as it found it. What
the claim says of `Peek` and `Next` holds for every cursor: `Peek` returns what
`Next` would return, a second `Peek` changes nothing, and `Next` after a `Peek`
returns what it returns without the `Peek` and leaves the cache empty. -/
theorem Rest_keeps_peeked_byte :
    charStream.Peek (newCharStream (ascii "ab")) =
      (Result.ok 97, { reader := ascii "b", hasPeek := true, peek := 97 }) ∧
    charStream.Rest { reader := ascii "b", hasPeek := true, peek := 97 } =
      (Result.ok (ascii "ab"), { reader := [], hasPeek := true, peek := 97 }) ∧
    (charStream.Next { reader := [], hasPeek := true, peek := 97 }).1 = Result.ok 97 ∧
    charStream.Rest (newCharStream (ascii "ab")) =
      (Result.ok (ascii "ab"), { reader := [], hasPeek := false, peek := 0 }) ∧
    (charStream.Next { reader := [], hasPeek := false, peek := 0 }).1 = Result.err Error.EOF ∧
    (∀ chars : charStream, (charStream.Rest chars).2.hasPeek = chars.hasPeek) ∧
    (∀ chars : charStream, (charStream.Peek chars).1 = (charStream.Next chars).1) ∧
    (∀ chars : charStream, charStream.Peek (charStream.Peek chars).2 = charStream.Peek chars) ∧
    (∀ chars : charStream,
      (charStream.Next (charStream.Peek chars).2).1 = (charStream.Next chars).1 ∧
      (charStream.Next (charStream.Peek chars).2).2.hasPeek = false) := by
  refine ⟨by decide, by decide!, by decide, by decide!, by decide, ?_, ?_, ?_, ?_⟩
  · intro chars
    unfold charStream.Rest Parser.withBudget
    simp only
    split
    · rw [RestLoop_hasPeek]
    · rw [RestLoop_hasPeek]
  · rintro ⟨rd, hp, pk⟩
    cases hp
    · cases rd <;> simp [charStream.Peek, charStream.Next, readerRead]
    · simp [charStream.Peek, charStream.Next]
  · rintro ⟨rd, hp, pk⟩
    cases hp
    · cases rd <;> simp [charStream.Peek, charStream.Next, readerRead]
    · simp [charStream.Peek]
  · rintro ⟨rd, hp, pk⟩
    cases hp
    · cases rd <;> simp [charStream.Peek, charStream.Next, readerRead]
    · simp [charStream.Peek, charStream.Next]

theorem ReadLoop_at_end (fuel : Nat) (buf : List Nat) (pos : Nat) (hp : Bool) (pk : Nat)
    (hpos : pos < buf.length) :
    charStream.ReadLoop (fuel + 1) buf pos { reader := [], hasPeek := hp, peek := pk } =
      (Result.ok buf, { reader := [], hasPeek := hp, peek := pk }) := by
  obtain ⟨n, hn⟩ : ∃ n, buf.length - pos = n + 1 := ⟨buf.length - pos - 1, by omega⟩
  simp [charStream.ReadLoop, readerRead, hn]

theorem ReadLoop_short (fuel : Nat) (buf : List Nat) (pos : Nat) (x : Nat) (xs : List Nat)
    (hp : Bool) (pk : Nat) (hlen : pos + (x :: xs).length < buf.length) :
    charStream.ReadLoop (fuel + 2) buf pos { reader := x :: xs, hasPeek := hp, peek := pk } =
      (Result.ok (buf.take pos ++ (x :: xs) ++ buf.drop (pos + (x :: xs).length)),
        { reader := [], hasPeek := hp, peek := pk }) := by
  rw [charStream.ReadLoop]
  obtain ⟨n, hn⟩ : ∃ n, buf.length - pos = n + 1 := ⟨buf.length - pos - 1, by omega⟩
  have hle : (x :: xs).length ≤ n + 1 := by omega
  have h1 : readerRead (x :: xs) (buf.length - pos) = (x :: xs, none, []) := by
    rw [hn]
    simp only [readerRead]
    rw [List.take_of_length_le hle, List.drop_of_length_le hle]
  simp only [h1]
  refine ReadLoop_at_end fuel _ _ hp pk ?_
  simp only [List.length_append, List.length_take, List.length_drop, List.length_cons] at hlen ⊢
  omega

/-- Claim C15 (the code fails the claim): on a stream that ends before `n`
bytes are read, `charStream.Read(n)` reports success and returns the bytes
read followed by zero bytes. On the stream `ab`, `Read(3)` returns the three
bytes `a`, `b`, 0; so it does when `a` is the cached byte. In general, on a
cursor with an empty cache over a stream `data`, `Read(len(data) + k + 1)`
returns `data` followed by `k + 1` zero bytes, for every amount that `make`
can allocate. -/
theorem Read_short_stream_succeeds :
    charStream.Read 3 (newCharStream (ascii "ab")) =
      (Result.ok [97, 98, 0], { reader := [], hasPeek := false, peek := 0 }) ∧
    charStream.Read 3 { reader := ascii "b", hasPeek := true, peek := 97 } =
      (Result.ok [97, 98, 0], { reader := [], hasPeek := false, peek := 97 }) ∧
    (∀ (data : Bytes) (k pk : Nat), data.length + k + 1 ≤ maxAlloc →
      charStream.Read (data.length + k + 1) { reader := data, hasPeek := false, peek := pk } =
        (Result.ok (data ++ List.replicate (k + 1) 0),
          { reader := [], hasPeek := false, peek := pk })) := by
  refine ⟨by decide, by decide, ?_⟩
  intro data k pk hmax
  have hnot : ¬ (data.length + k + 1 > maxAlloc) := by omega
  simp only [charStream.Read, hnot, if_false, Parser.withBudget, charStream.budget,
    Bool.false_and, Bool.false_eq_true]
  cases data with
  | nil =>
    have h := ReadLoop_at_end 1 (List.replicate (k + 1) 0) 0 false pk (by simp)
    simpa using h
  | cons x xs =>
    have h := ReadLoop_short (xs.length + 1) (List.replicate ((x :: xs).length + k + 1) 0) 0 x xs
      false pk (by simp only [List.length_replicate, List.length_cons]; omega)
    rw [List.length_cons] at h
    simp only [List.length_cons]
    rw [h]
    simp [List.drop_replicate]
    omega

/-- Claim C16 (the code fails the claim): when the buffer of `Rest` is full, the
new, longer buffer replaces it with nothing copied into it. On a stream of 1024
bytes `a`, `Rest` returns 1024 zero bytes; on that stream followed by `tail`
it returns 1024 zero bytes followed by `tail`. A stream shorter than the
buffer, such as `abc`, is returned as it stands. -/
theorem Rest_loses_full_buffer :
    charStream.Rest (newCharStream (List.replicate 1024 97)) =
      (Result.ok (List.replicate 1024 0), { reader := [], hasPeek := false, peek := 0 }) ∧
    charStream.Rest (newCharStream (List.replicate 1024 97 ++ ascii "tail")) =
      (Result.ok (List.replicate 1024 0 ++ ascii "tail"),
        { reader := [], hasPeek := false, peek := 0 }) ∧
    charStream.Rest (newCharStream (ascii "abc")) =
      (Result.ok (ascii "abc"), { reader := [], hasPeek := false, peek := 0 }) := by
  refine ⟨by decide!, by decide!, by decide!⟩

/-! ## Header fields -/

theorem mapGet_mapSet (m : HeaderMap) (k name : Bytes) (v : List Bytes) :
    mapGet (mapSet m k v) name = if k = name then v else mapGet m name := by
  induction m with
  | nil =>
    by_cases h : k = name
    · simp [mapSet, mapGet, h]
    · simp [mapSet, mapGet, h]
  | cons e m ih =>
    obtain ⟨k1, v1⟩ := e
    by_cases h1 : k1 = k
    · subst h1
      by_cases h : k1 = name
      · simp [mapSet, mapGet, h]
      · simp [mapSet, mapGet, h]
    · simp only [mapSet, h1, if_false, mapGet]
      rw [ih]
      by_cases h : k = name
      · subst h
        simp [h1]
      · simp [h]

theorem mapGet_addFields (acc : HeaderMap) (fields : List FieldLine) (name : Bytes) :
    mapGet (addFields acc fields) name = mapGet acc name ++ valuesOf name fields := by
  induction fields generalizing acc with
  | nil => simp [addFields, valuesOf]
  | cons f fields ih =>
    rw [addFields, ih, addField, mapGet_mapSet]
    by_cases h : f.name = name
    · subst h
      simp [valuesOf]
    · simp [valuesOf, h]

theorem valuesOf_absent (name : Bytes) (fields : List FieldLine)
    (h : ∀ f ∈ fields, f.name ≠ name) : valuesOf name fields = [] := by
  induction fields with
  | nil => rfl
  | cons f fields ih =>
    simp only [valuesOf, h f (List.mem_cons_self _ _), if_false]
    exact ih (fun g hg => h g (List.mem_cons_of_mem _ hg))

theorem fieldValueOf_ascii (value : Bytes) (h : ∀ x ∈ value, x < 128) :
    fieldValueOf value = value := by
  induction value with
  | nil => rfl
  | cons x value ih =>
    rw [fieldValueOf, stringOfByte_of_lt (h x (List.mem_cons_self _ _)),
      ih (fun y hy => h y (List.mem_cons_of_mem _ hy))]
    rfl

/-- The header mapping of a head made of a request line that
`parseRequestLine` accepts, header lines `name ':' OWS value CRLF` whose values
have no space or tab, and a bare CRLF: `parseHttpMessage` sends every name to
the values of the header lines with exactly that name, in order of arrival,
each value as `parseFieldValue` builds it, which is the value as received when
its bytes are ASCII; a name that did not occur is sent to nothing, and the
cursor is left right after the final CRLF, with nothing cached. -/
theorem parseHttpMessage_headers (method : Bytes) (segments : List Bytes) (a b : Nat)
    (fields : List FieldLine) (rest : Bytes) (chars : charStream)
    (hmethod : ∀ x ∈ method, isTokenChar x = true)
    (hsegments : ∀ s ∈ segments, ∀ x ∈ s, isSegmentChar x = true) (hne : segments ≠ [])
    (ha : a ≤ 9) (hb : b ≤ 9) (hfields : ∀ f ∈ fields, f.wellFormed)
    (h : chars.pending = renderHead method segments a b fields ++ rest) :
    ∃ request,
      parseHttpMessage chars =
        (Result.ok request, { reader := rest, hasPeek := false, peek := 13 }) ∧
      (∀ name, mapGet request.Headers name = valuesOf name fields) ∧
      (∀ name, (∀ f ∈ fields, f.name ≠ name) → mapGet request.Headers name = []) ∧
      (∀ f ∈ fields, (∀ x ∈ f.value, x < 128) → fieldValueOf f.value = f.value) := by
  refine ⟨_, parseHttpMessage_of_pending method segments a b fields hmethod hsegments hne
    ha hb hfields rest chars h, ?_, ?_, ?_⟩
  · intro name
    simp [mapGet_addFields, mapGet]
  · intro name hname
    simp [mapGet_addFields, mapGet, valuesOf_absent name fields hname]
  · intro f _ hf
    exact fieldValueOf_ascii f.value hf

theorem parseHttpMessage_headers_witness :
    (newCharStream (ascii
      "GET /x HTTP/1.1\r\nAccept: a\r\nhost: h\r\nAccept:b\r\nHost:  i\r\n\r\nbody")).pending =
      renderHead (ascii "GET") [ascii "x"] 1 1
        [{ name := ascii "Accept", ows := [32], value := ascii "a" },
          { name := ascii "host", ows := [32], value := ascii "h" },
          { name := ascii "Accept", ows := [], value := ascii "b" },
          { name := ascii "Host", ows := [32, 32], value := ascii "i" }] ++ ascii "body" ∧
    valuesOf (ascii "Accept")
        [{ name := ascii "Accept", ows := [32], value := ascii "a" },
          { name := ascii "host", ows := [32], value := ascii "h" },
          { name := ascii "Accept", ows := [], value := ascii "b" },
          { name := ascii "Host", ows := [32, 32], value := ascii "i" }] =
      [ascii "a", ascii "b"] ∧
    ∃ request,
      parseHttpMessage (newCharStream (ascii
        "GET /x HTTP/1.1\r\nAccept: a\r\nhost: h\r\nAccept:b\r\nHost:  i\r\n\r\nbody")) =
        (Result.ok request, { reader := ascii "body", hasPeek := false, peek := 13 }) ∧
      (∀ name, mapGet request.Headers name = valuesOf name
        [{ name := ascii "Accept", ows := [32], value := ascii "a" },
          { name := ascii "host", ows := [32], value := ascii "h" },
          { name := ascii "Accept", ows := [], value := ascii "b" },
          { name := ascii "Host", ows := [32, 32], value := ascii "i" }]) :=
  ⟨by decide, by decide,
    (parseHttpMessage_headers (ascii "GET") [ascii "x"] 1 1
      [{ name := ascii "Accept", ows := [32], value := ascii "a" },
        { name := ascii "host", ows := [32], value := ascii "h" },
        { name := ascii "Accept", ows := [], value := ascii "b" },
        { name := ascii "Host", ows := [32, 32], value := ascii "i" }]
      (ascii "body") _
      (by decide) (by decide) (by decide) (by decide) (by decide)
      (by
        intro f hf
        simp only [List.mem_cons, List.mem_singleton, List.not_mem_nil, or_false] at hf
        rcases hf with rfl | rfl | rfl | rfl <;> exact ⟨by decide, by decide, by decide⟩)
      (by decide)).imp fun _ hr => ⟨hr.1, hr.2.1⟩⟩

/-- Claim C17 (the code fails the claim): the loop of `parseHttpMessage`
accumulates the values per name in order of arrival, but the values and names
it accumulates come from `parseFieldValue` and `parseToken`, whose defects make
the claim fail on well-formed heads. For the header line `X: ` followed by the
octet 0xE9, the mapping sends `X` to the two octets 0xC3 0xA9, not to the value
received. For the header line `A: b` followed by two spaces, it sends `A` to
`b` followed by a space. For the header line `X.Y: a`, whose name is a token,
no mapping is returned but the error of `Expect(":")` on the full stop. On a
head whose names have no full stop and whose values are ASCII without
whitespace after them the mapping is as claimed: repeated names accumulate in
order, the case of a name is kept, an absent name maps to nothing and the
cursor is left right after the final CRLF. -/
theorem parseHttpMessage_header_values_altered :
    parseHttpMessage (newCharStream
        (ascii "GET / HTTP/1.1\r\nX: " ++ [233] ++ ascii "\r\n\r\nbody")) =
      (Result.ok
        { RequestLine := { Method := ascii "GET", Target := [ascii ""], Version := 17 },
          Headers := [(ascii "X", [ [195, 169] ])],
          RequestBody := [] },
        { reader := ascii "body", hasPeek := false, peek := 13 }) ∧
    mapGet [(ascii "X", [ [195, 169] ])] (ascii "X") ≠ [ [233] ] ∧
    parseHttpMessage (newCharStream (ascii "GET / HTTP/1.1\r\nA: b  \r\n\r\nbody")) =
      (Result.ok
        { RequestLine := { Method := ascii "GET", Target := [ascii ""], Version := 17 },
          Headers := [(ascii "A", [ascii "b "])],
          RequestBody := [] },
        { reader := ascii "body", hasPeek := false, peek := 13 }) ∧
    (parseHttpMessage (newCharStream (ascii "GET / HTTP/1.1\r\nX.Y: a\r\n\r\nbody"))).1 =
      Result.err (Error.unexpectedCharacter 46 58) ∧
    parseHttpMessage (newCharStream (ascii
        "GET /x HTTP/1.1\r\nAccept: a\r\nhost: h\r\nAccept:b\r\nHost:  i\r\n\r\nbody")) =
      (Result.ok
        { RequestLine := { Method := ascii "GET", Target := [ascii "x"], Version := 17 },
          Headers := [(ascii "Accept", [ascii "a", ascii "b"]), (ascii "host", [ascii "h"]),
            (ascii "Host", [ascii "i"])],
          RequestBody := [] },
        { reader := ascii "body", hasPeek := false, peek := 13 }) ∧
    mapGet [(ascii "Accept", [ascii "a", ascii "b"]), (ascii "host", [ascii "h"]),
        (ascii "Host", [ascii "i"])] (ascii "Content-Length") = [] := by
  refine ⟨by decide!, by decide, by decide!, by decide!, by decide!, by decide⟩

/-- Claim C18 (the code fails the claim): of the whitespace that follows the
value, `parseFieldValue` cuts only the last byte, and it appends each byte
through the conversion `string(char)`, which turns an octet above 0x7F into
two. On the line `A: b` followed by two spaces and CRLF, `parseHeaderField`
returns the value `b` followed by a space; on the line `A: ` followed by the
octet 0xE9 and CRLF it returns the two octets 0xC3 0xA9. With one space or none
after an ASCII value, the value is returned as it stands. -/
theorem parseHeaderField_keeps_whitespace :
    (parseHeaderField (newCharStream (ascii "A: b  \r\n"))).1 =
      Result.ok { Name := ascii "A", Value := ascii "b " } ∧
    (parseHeaderField (newCharStream (ascii "A: b \t \r\n"))).1 =
      Result.ok { Name := ascii "A", Value := ascii "b \t" } ∧
    (parseHeaderField (newCharStream [65, 58, 32, 233, 13, 10])).1 =
      Result.ok { Name := ascii "A", Value := [195, 169] } ∧
    (parseHeaderField (newCharStream (ascii "A:  b c \r\n"))).1 =
      Result.ok { Name := ascii "A", Value := ascii "b c" } := by
  refine ⟨by decide!, by decide!, by decide!, by decide!⟩

/-- Claim C19 (the code fails the claim): the character set of `parseToken` has
the comma (44) where the token characters have the full stop (46). On the
stream `a.b ` it returns `a` and leaves the full stop unconsumed; on the stream
`a,b ` it returns `a,b`. -/
theorem parseToken_comma_for_full_stop :
    isTokenChar 46 = false ∧ isTokenChar 44 = true ∧
    parseToken (newCharStream (ascii "a.b ")) =
      (Result.ok (ascii "a"), { reader := ascii "b ", hasPeek := true, peek := 46 }) ∧
    parseToken (newCharStream (ascii "a,b ")) =
      (Result.ok (ascii "a,b"), { reader := [], hasPeek := true, peek := 32 }) := by
  refine ⟨by decide, by decide, by decide!, by decide!⟩

/-- Claim C20 (the code fails the claim): `parseRequestLine` drops the error of
`parseHttpVersion`. On `GET / X` followed by CRLF, and on `GET / HTTP/1.x`
followed by CRLF, where `parseHttpVersion` fails, it returns no error but a
`RequestLine` with version 0. -/
theorem parseRequestLine_drops_version_error :
    (parseHttpVersion { reader := ascii "X\r\n", hasPeek := false, peek := 32 }).1 =
      Result.err (Error.unexpectedCharacter 88 72) ∧
    parseRequestLine (newCharStream (ascii "GET / X\r\n")) =
      (Result.ok { Method := ascii "GET", Target := [ascii ""], Version := 0 },
        { reader := [], hasPeek := false, peek := 32 }) ∧
    (parseHttpVersion { reader := ascii "HTTP/1.x\r\n", hasPeek := false, peek := 32 }).1 =
      Result.err (Error.invalidDigit 120) ∧
    parseRequestLine (newCharStream (ascii "GET / HTTP/1.x\r\n")) =
      (Result.ok { Method := ascii "GET", Target := [ascii ""], Version := 0 },
        { reader := [], hasPeek := false, peek := 32 }) := by
  refine ⟨by decide!, by decide!, by decide!, by decide!⟩

end Schrv
